import Mathlib

/-!
Verification of the `dsig` XML digital-signature package against its
specification.

The development shallowly embeds the package's core:

* `src/internal/stack/stack.go`  — the namespace stack (`Stack`);
* `src/internal/sigsplit` (`SplitSignature`, `bufRawTokenReader`) — the
  token-stream splitter;
* `src/dsig.go` — the verifier (`Signature.Verify`) and the algorithm
  registry (`DigestMethod.hash`, `SignatureMethod.hash`).

External collaborators (the XML parser, the c14n engine, the base64
codec, the hash functions and the RSA primitive) are modelled as
abstract parameters, exactly at the boundaries the code uses them.

Conventions:

* Go strings are `String`; byte slices are `List Nat`.
* A Go `map[string]string` namespace frame is an association list with
  unique keys (`Frame`); insertion overwrites in place, so lookup of a
  key returns the most recent assignment, as for a Go map.
* The Go `stack.Stack` slice keeps its top at the end; the Lean `Stack`
  keeps the top at the head, so `push` is `cons` and `pop` is `tail`.
  `Stack.Get`, which scans from the top, becomes head-first search.
* Go's `Pop` on an empty stack panics (slice bound violation); the
  embedding makes this partiality explicit with `Option`, and the
  splitter's outcome type has a dedicated `panic` constructor.
-/

/-- An XML qualified name as `encoding/xml` reports it from `RawToken`:
`space` is the *prefix exactly as written* (no namespace resolution),
`localName` the local part. Mirrors `xml.Name`. -/
structure XmlName where
  space : String
  localName : String
  deriving DecidableEq, Repr

/-- An XML attribute, mirroring `xml.Attr`. -/
structure XmlAttr where
  name : XmlName
  value : String
  deriving DecidableEq, Repr

/-- An XML token, mirroring the `xml.Token` variants the splitter
switches on. `charData`, `comment`, `procInst` and `directive` carry
opaque content that the splitter copies without inspecting. -/
inductive Token where
  | startElement (name : XmlName) (attr : List XmlAttr)
  | endElement (name : XmlName)
  | charData (s : String)
  | comment (s : String)
  | procInst (s : String)
  | directive (s : String)
  deriving DecidableEq, Repr

/-- A namespace frame: one Go `map[string]string` from prefix (empty
string = default namespace) to URI, as an insertion-ordered association
list with unique keys. -/
abbrev Frame : Type := List (String × String)

/-- Lookup in a frame: the value stored for key `k`, mirroring
`names[k]` map access. -/
def frameFind (f : Frame) (k : String) : Option String :=
  match f with
  | [] => none
  | (k', v) :: rest => if k' = k then some v else frameFind rest k

/-- Map assignment `names[k] = v`: overwrite the existing entry for `k`
in place, or append a new entry. -/
def frameInsert (f : Frame) (k v : String) : Frame :=
  match f with
  | [] => [(k, v)]
  | (k', v') :: rest =>
      if k' = k then (k, v) :: rest else (k', v') :: frameInsert rest k v

/-- The namespace stack of `src/internal/stack/stack.go`, topmost frame
first (the Go slice keeps it last). -/
abbrev Stack : Type := List Frame

/-- `Stack.Push` from `stack.go`: add a frame on top. -/
def Stack.Push (s : Stack) (names : Frame) : Stack := names :: s

/-- `Stack.Pop` from `stack.go`: remove the top frame. The Go code
`*s = (*s)[:len(*s)-1]` panics when the stack is empty; that case is
`none`. -/
def Stack.Pop (s : Stack) : Option Stack :=
  match s with
  | [] => none
  | _ :: rest => some rest

/-- `Stack.Len` from `stack.go`. -/
def Stack.Len (s : Stack) : Nat := s.length

/-- `Stack.Get` from `stack.go`: scan from the topmost frame down and
return the first binding of `k`, or `""` when no frame binds it. -/
def Stack.Get (s : Stack) (k : String) : String :=
  match s with
  | [] => ""
  | f :: rest =>
      match frameFind f k with
      | some v => v
      | none => Stack.Get rest k

/-- The `signatureName` constant of `sigsplit`. -/
def signatureName : XmlName :=
  ⟨"http://www.w3.org/2000/09/xmldsig#", "Signature"⟩

/-- The `signatureDepth` constant of `sigsplit`. -/
def signatureDepth : Nat := 1

/-- The `signedInfoName` constant of `sigsplit`. -/
def signedInfoName : XmlName :=
  ⟨"http://www.w3.org/2000/09/xmldsig#", "SignedInfo"⟩

/-- The `signedInfoDepth` constant of `sigsplit`. -/
def signedInfoDepth : Nat := 2

/-- Build the namespace frame of a start element from its attributes,
as the `StartElement` case of `SplitSignature` does: an attribute with
prefix `xmlns` binds its local name; an attribute literally named
`xmlns` (no prefix) binds the empty prefix. Later attributes overwrite
earlier ones, as repeated Go map assignments would. -/
def framesOfAttrs (attrs : List XmlAttr) : Frame :=
  attrs.foldl
    (fun names attr =>
      if attr.name.space = "xmlns" then
        frameInsert names attr.name.localName attr.value
      else if attr.name.space = "" ∧ attr.name.localName = "xmlns" then
        frameInsert names "" attr.value
      else names)
    []

/-- The `allNames` map built on entry to `SignedInfo`: every binding in
the stack, merged bottom-to-top so that a binding closer to the top
overwrites one further down (the Go loop ranges over the slice from
index 0, which is the bottom). -/
def allNamesOf (s : Stack) : Frame :=
  s.reverse.foldl
    (fun acc f => f.foldl (fun a kv => frameInsert a kv.1 kv.2) acc)
    []

/-- The namespace-declaration attribute injected for binding
`(k, v)`: the empty prefix becomes an attribute named `xmlns`, a
non-empty prefix `k` becomes an attribute with prefix `xmlns` and local
name `k`. -/
def declAttrOf (kv : String × String) : XmlAttr :=
  if kv.1 = "" then ⟨⟨"", "xmlns"⟩, kv.2⟩ else ⟨⟨"xmlns", kv.1⟩, kv.2⟩

/-- The attributes `SplitSignature` appends onto the `SignedInfo` start
element: one declaration per binding of `allNames`. (Go ranges over the
map in unspecified order; the embedding fixes insertion order.) -/
def injectedAttrs (s : Stack) : List XmlAttr :=
  (allNamesOf s).map declAttrOf

/-- The mutable state of the `SplitSignature` walk. -/
structure SplitState where
  outer : List Token
  inner : List Token
  inSignature : Bool
  inSignedInfo : Bool
  stack : Stack
  deriving DecidableEq

/-- The initial state of `SplitSignature`. -/
def initState : SplitState :=
  { outer := [], inner := [], inSignature := false, inSignedInfo := false,
    stack := [] }

/-- One iteration of `SplitSignature`'s token switch. `none` is the
panic of `stack.Pop()` on an empty stack. Mirrors
`src/internal/sigsplit` lines 51–166. -/
def step (st : SplitState) (t : Token) : Option SplitState :=
  match t with
  | .startElement name attrs =>
      let names := framesOfAttrs attrs
      let stack1 := Stack.Push st.stack names
      let resolvedName : XmlName := ⟨Stack.Get stack1 name.space, name.localName⟩
      let inSig :=
        if Stack.Len stack1 = signatureDepth + 1 ∧ resolvedName = signatureName
        then true else st.inSignature
      let hitSignedInfo :=
        Stack.Len stack1 = signedInfoDepth + 1 ∧ resolvedName = signedInfoName
      let attrs2 := if hitSignedInfo then attrs ++ injectedAttrs stack1 else attrs
      let inSI := if hitSignedInfo then true else st.inSignedInfo
      let t2 := Token.startElement name attrs2
      some { st with
        stack := stack1
        inSignature := inSig
        inSignedInfo := inSI
        inner := if inSI then st.inner ++ [t2] else st.inner
        outer := if inSig then st.outer else st.outer ++ [t2] }
  | .endElement _ =>
      let inner' := if st.inSignedInfo then st.inner ++ [t] else st.inner
      let outer' := if st.inSignature then st.outer else st.outer ++ [t]
      match st.stack with
      | [] => none
      | _ :: rest =>
          let inSig :=
            if rest.length = signatureDepth ∧ st.inSignature
            then false else st.inSignature
          let inSI :=
            if rest.length = signedInfoDepth ∧ st.inSignedInfo
            then false else st.inSignedInfo
          some { outer := outer', inner := inner', inSignature := inSig,
                 inSignedInfo := inSI, stack := rest }
  | _ =>
      some { st with
        inner := if st.inSignedInfo then st.inner ++ [t] else st.inner
        outer := if st.inSignature then st.outer else st.outer ++ [t] }

/-- Run the `SplitSignature` loop over a list of tokens. -/
def processTokens (st : SplitState) (ts : List Token) : Option SplitState :=
  match ts with
  | [] => some st
  | t :: rest =>
      match step st t with
      | none => none
      | some st' => processTokens st' rest

/-- A raw token reader, modelled by the trace `SplitSignature` observes:
finitely many tokens followed either by `io.EOF` (`term = none`) or by
some other error (`term = some e`). -/
structure Reader (ε : Type) where
  toks : List Token
  term : Option ε

/-- The outcome of `SplitSignature`'s walk: the two token buffers handed
to canonicalization on success; the propagated reader error together
with the `nil, nil` buffers the code returns alongside it; or the panic
of popping an empty namespace stack. -/
inductive SplitOutcome (ε : Type) where
  | ok (outer inner : List Token)
  | fail (outer inner : List Token) (e : ε)
  | panic
  deriving DecidableEq

/-- `SplitSignature` up to the point where the two buffers are handed to
the external c14n engine: walk the reader's tokens; a non-EOF reader
error is returned verbatim with `nil` buffers; EOF ends the walk and the
buffers proceed to canonicalization. -/
def splitWalk {ε : Type} (r : Reader ε) : SplitOutcome ε :=
  match processTokens initState r.toks with
  | none => .panic
  | some st =>
      match r.term with
      | some e => .fail [] [] e
      | none => .ok st.outer st.inner

/-- The walk over a well-terminated (EOF-ended) token stream. -/
def splitTokens (ts : List Token) : SplitOutcome Empty :=
  splitWalk { toks := ts, term := none }

/-- The `bufRawTokenReader` of `sigsplit` lines 184–194. `buf` is the
slice the reader was built from (reads never write to it); `rest` is
the reader's own suffix, which `RawToken` re-slices. -/
structure BufReader where
  buf : List Token
  rest : List Token
  deriving DecidableEq

/-- Construct a `bufRawTokenReader` over a buffer, as
`bufRawTokenReader(outer)` does. -/
def mkBufReader (b : List Token) : BufReader := ⟨b, b⟩

/-- One `RawToken` call: the next token, or `none` for `io.EOF` when
the remaining sequence is empty. -/
def BufReader.rawToken (r : BufReader) : Option Token × BufReader :=
  match r.rest with
  | [] => (none, r)
  | t :: ts => (some t, { r with rest := ts })

/-- `n` successive `RawToken` calls and the final reader state. -/
def readN : Nat → BufReader → List (Option Token) × BufReader
  | 0, r => ([], r)
  | n + 1, r =>
      let p := r.rawToken
      let q := readN n p.2
      (p.1 :: q.1, q.2)

/-- The running nesting depth contributed by one token. -/
def tokenDelta : Token → Int
  | .startElement _ _ => 1
  | .endElement _ => -1
  | _ => 0

/-- Track the nesting depth across a token list; `none` when some
prefix closes more elements than it opened. -/
def runDepth (d : Int) : List Token → Option Int
  | [] => some d
  | t :: ts =>
      if d + tokenDelta t < 0 then none else runDepth (d + tokenDelta t) ts


/-- A balanced token stream: no prefix dips below depth 0 and the whole
stream returns to depth 0. -/
def BalancedToks (ts : List Token) : Prop := runDepth 0 ts = some 0

instance (ts : List Token) : Decidable (BalancedToks ts) := by
  unfold BalancedToks; infer_instance

/-- Specification-side lookup: the URI bound by the topmost (head-most)
frame that defines the prefix, or the empty string when none does. -/
def getTopmost (s : Stack) (k : String) : String :=
  match s.find? (fun f => (frameFind f k).isSome) with
  | some f => (frameFind f k).getD ""
  | none => ""

/-! ## Supporting lemmas -/

theorem tokenDelta_start (n : XmlName) (a : List XmlAttr) :
    tokenDelta (.startElement n a) = 1 := rfl

theorem tokenDelta_end (n : XmlName) : tokenDelta (.endElement n) = -1 := rfl

theorem tokenDelta_charData (s : String) : tokenDelta (.charData s) = 0 := rfl

theorem tokenDelta_comment (s : String) : tokenDelta (.comment s) = 0 := rfl

theorem tokenDelta_procInst (s : String) : tokenDelta (.procInst s) = 0 := rfl

theorem tokenDelta_directive (s : String) : tokenDelta (.directive s) = 0 := rfl

theorem get_eq_getTopmost (s : Stack) (k : String) :
    Stack.Get s k = getTopmost s k := by
  induction s with
  | nil => rfl
  | cons f rest ih =>
      show Stack.Get (f :: rest) k = getTopmost (f :: rest) k
      unfold Stack.Get getTopmost
      cases h : frameFind f k with
      | none => simp [List.find?, h]; rw [ih]; rfl
      | some v => simp [List.find?, h]

theorem step_stack_len (st : SplitState) (t : Token) (st' : SplitState)
    (h : step st t = some st') :
    (st'.stack.length : Int) = (st.stack.length : Int) + tokenDelta t := by
  cases t with
  | startElement name attrs =>
      simp only [step, Option.some.injEq] at h
      subst h
      simp only [Stack.Push, List.length_cons, tokenDelta_start]
      push_cast
      ring
  | endElement name =>
      cases hs : st.stack with
      | nil => simp [step, hs] at h
      | cons f rest =>
          simp only [step, hs, Option.some.injEq] at h
          subst h
          simp only [hs, List.length_cons, tokenDelta_end]
          push_cast
      
          ring
  | charData s =>
      simp only [step, Option.some.injEq] at h
      subst h; simp [tokenDelta_charData]
  | comment s =>
      simp only [step, Option.some.injEq] at h
      subst h; simp [tokenDelta_comment]
  | procInst s =>
      simp only [step, Option.some.injEq] at h
      subst h; simp [tokenDelta_procInst]
  | directive s =>
      simp only [step, Option.some.injEq] at h
      subst h; simp [tokenDelta_directive]

theorem step_isSome_of_nonneg (st : SplitState) (t : Token)
    (h : ¬ (st.stack.length : Int) + tokenDelta t < 0) :
    (step st t).isSome := by
  cases t with
  | endElement name =>
      rw [tokenDelta_end] at h
      cases hs : st.stack with
      | nil => rw [hs] at h; simp at h
      | cons f rest => simp [step, hs]
  | startElement name attrs => rfl
  | charData s => rfl
  | comment s => rfl
  | procInst s => rfl
  | directive s => rfl

theorem processTokens_of_runDepth :
    ∀ (ts : List Token) (st : SplitState) (d' : Int),
      runDepth (st.stack.length : Int) ts = some d' →
      ∃ st', processTokens st ts = some st' ∧ (st'.stack.length : Int) = d' := by
  intro ts
  induction ts with
  | nil =>
      intro st d' h
      simp [runDepth] at h
      exact ⟨st, rfl, by omega⟩
  | cons t rest ih =>
      intro st d' h
      simp only [runDepth] at h
      by_cases hneg : (st.stack.length : Int) + tokenDelta t < 0
      · simp [hneg] at h
      · simp only [hneg, if_false] at h
        obtain ⟨st1, hst1⟩ :=
          Option.isSome_iff_exists.mp (step_isSome_of_nonneg st t hneg)
        have hlen1 := step_stack_len st t st1 hst1
        rw [← hlen1] at h
        obtain ⟨st', h1, h2⟩ := ih st1 d' h
        exact ⟨st', by simp [processTokens, hst1, h1], h2⟩

/-! ## Claim C7 -/

/-- C7: namespace-stack lookup of a prefix returns the URI bound by the
topmost frame defining that prefix and the empty string when no frame
defines it (the empty prefix being an ordinary key); during
`SplitSignature` every `StartElement` step grows the stack by exactly
one frame and every `EndElement` step shrinks it by exactly one (other
tokens leave it unchanged), so after processing any balanced token
stream the stack depth is zero. -/
theorem stack_topmost_lookup_and_balanced_depth_zero
    (s : Stack) (k : String) (st : SplitState) (t : Token) (st' : SplitState)
    (ts : List Token) :
    Stack.Get s k = getTopmost s k ∧
    (step st t = some st' →
      (st'.stack.length : Int) = (st.stack.length : Int) + tokenDelta t) ∧
    (BalancedToks ts →
      ∃ stf, processTokens initState ts = some stf ∧ Stack.Len stf.stack = 0) := by
  refine ⟨get_eq_getTopmost s k, step_stack_len st t st', ?_⟩
  intro hb
  have h0 : ((initState.stack.length : Int)) = 0 := rfl
  obtain ⟨stf, h1, h2⟩ :=
    processTokens_of_runDepth ts initState 0 (by rw [h0]; exact hb)
  exact ⟨stf, h1, by simpa [Stack.Len] using h2⟩

theorem stack_topmost_lookup_and_balanced_depth_zero_witness :
    Stack.Get [[("", "u")], [("", "v")]] "" =
      getTopmost [[("", "u")], [("", "v")]] "" ∧
    (((⟨[Token.charData "x"], [], false, false, []⟩ : SplitState).stack.length : Int)
      = ((initState.stack.length : Int) + tokenDelta (Token.charData "x"))) ∧
    (∃ stf,
      processTokens initState
        [Token.startElement ⟨"", "a"⟩ [], Token.endElement ⟨"", "a"⟩] = some stf ∧
      Stack.Len stf.stack = 0) := by
  obtain ⟨h1, h2, h3⟩ :=
    stack_topmost_lookup_and_balanced_depth_zero
      [[("", "u")], [("", "v")]] "" initState (Token.charData "x")
      ⟨[Token.charData "x"], [], false, false, []⟩
      [Token.startElement ⟨"", "a"⟩ [], Token.endElement ⟨"", "a"⟩]
  exact ⟨h1, h2 (by decide), h3 (by decide)⟩

/-! ## Claim C10 -/

/-- C10: `SplitSignature` pops the namespace stack on every
`EndElement` token without checking the current depth; a reader whose
first token is an `EndElement` — which the raw-token interface permits,
since the reader performs no balance checking — drives `Stack.Pop` at
depth 0, whose precondition failure is a panic (`Pop` has no result on
the empty stack) rather than a returned error. -/
theorem pop_at_depth_zero_panics :
    splitWalk { toks := [Token.endElement ⟨"", "a"⟩], term := none } =
      (SplitOutcome.panic : SplitOutcome String) ∧
    Stack.Pop [] = none ∧
    (∀ (o i : List Token) (e : String),
      (SplitOutcome.panic : SplitOutcome String) ≠ SplitOutcome.fail o i e) ∧
    (∀ (o i : List Token),
      (SplitOutcome.panic : SplitOutcome String) ≠ SplitOutcome.ok o i) := by
  refine ⟨by decide, rfl, ?_, ?_⟩ <;> intros <;> exact fun h => nomatch h

/-! ## Claim C6 -/

/-- C6 counterexample: a reader that first yields an `EndElement` (at
depth 0) and then a non-EOF error makes `SplitSignature` panic on the
namespace-stack pop before the error is ever read, so the error is not
returned verbatim. -/
theorem reader_error_swallowed_by_underflow :
    splitWalk { toks := [Token.endElement ⟨"", "a"⟩], term := some "dummy error" } =
      (SplitOutcome.panic : SplitOutcome String) ∧
    (SplitOutcome.panic : SplitOutcome String) ≠
      SplitOutcome.fail [] [] "dummy error" := by
  exact ⟨by decide, fun h => nomatch h⟩

/-- C6 (amended): provided the reader's tokens do not underflow the
namespace stack (no `EndElement` arrives at depth 0), a non-EOF reader
error is returned verbatim, immediately, with both output buffers nil;
and on EOF the walk just stops — the accumulated buffers proceed to
canonicalization with no synthesized error, even when elements are
still open at EOF. -/
theorem reader_error_propagated_without_underflow {ε : Type}
    (toks : List Token) (st' : SplitState) (e : ε)
    (h : processTokens initState toks = some st') :
    splitWalk { toks := toks, term := some e } = SplitOutcome.fail [] [] e ∧
    splitWalk { toks := toks, term := (none : Option ε) } =
      SplitOutcome.ok st'.outer st'.inner := by
  constructor <;> simp [splitWalk, h]

theorem reader_error_propagated_without_underflow_witness :
    splitWalk { toks := [Token.startElement ⟨"", "a"⟩ []], term := some "io failure" } =
      SplitOutcome.fail [] [] "io failure" ∧
    splitWalk { toks := [Token.startElement ⟨"", "a"⟩ []], term := (none : Option String) } =
      SplitOutcome.ok [Token.startElement ⟨"", "a"⟩ []] [] := by
  exact reader_error_propagated_without_underflow
    [Token.startElement ⟨"", "a"⟩ []]
    ⟨[Token.startElement ⟨"", "a"⟩ []], [], false, false, [[]]⟩
    "io failure" (by decide)

/-! ## Claim C9 -/

theorem readN_eof (orig : List Token) (k : Nat) :
    readN k ⟨orig, []⟩ = (List.replicate k none, ⟨orig, []⟩) := by
  induction k with
  | zero => rfl
  | succ n ih => simp [readN, BufReader.rawToken, ih, List.replicate_succ]

theorem readN_all (rest orig : List Token) (k : Nat) :
    readN (rest.length + k) ⟨orig, rest⟩ =
      (rest.map some ++ List.replicate k none, ⟨orig, []⟩) := by
  induction rest with
  | nil => simpa using readN_eof orig k
  | cons t ts ih =>
      have hn : (t :: ts).length + k = (ts.length + k) + 1 := by
        simp [List.length_cons]; omega
      rw [hn]
      simp [readN, BufReader.rawToken, ih]

/-- C9: the token buffer is a finite sequence behind the one-method
reader interface: successive `RawToken` calls yield the buffered tokens
in order, after which the end-of-stream indicator is returned
(persistently); reading never touches the buffer the reader was built
from, so a reader rebuilt from that buffer replays the same sequence
from the start after the first reader is fully consumed. -/
theorem bufReader_in_order_then_eof_and_replayable (b : List Token) (k : Nat) :
    (readN (b.length + k) (mkBufReader b)).1 =
      b.map some ++ List.replicate k none ∧
    (readN (b.length + k) (mkBufReader b)).2 = ⟨b, []⟩ ∧
    (readN (b.length + k)
        (mkBufReader ((readN (b.length + k) (mkBufReader b)).2.buf))).1 =
      b.map some ++ List.replicate k none := by
  have h := readN_all b b k
  refine ⟨?_, ?_, ?_⟩ <;> simp [mkBufReader, h]

/-! ## Frame and merge lemmas for the namespace injection -/

/-- The keys of a frame. -/
def frameKeys (f : Frame) : List String := f.map Prod.fst

/-- A well-formed frame has pairwise distinct keys, as a Go map does. -/
def WFFrame (f : Frame) : Prop := (frameKeys f).Nodup

instance (f : Frame) : Decidable (WFFrame f) := by
  unfold WFFrame; infer_instance

/-- A well-formed stack consists of well-formed frames. -/
def WFStack (s : Stack) : Prop := ∀ f ∈ s, WFFrame f

instance (s : Stack) : Decidable (WFStack s) := by
  unfold WFStack; exact List.decidableBAll _ s

/-- Head-first search through the stack: the topmost binding of `k`. -/
def stackFind (s : Stack) (k : String) : Option String :=
  match s with
  | [] => none
  | f :: rest =>
      match frameFind f k with
      | some v => some v
      | none => stackFind rest k

/-- Whether any frame of the stack binds the prefix. -/
def boundIn (s : Stack) (k : String) : Bool :=
  s.any (fun f => (frameFind f k).isSome)

theorem get_eq_stackFind_getD (s : Stack) (k : String) :
    Stack.Get s k = (stackFind s k).getD "" := by
  induction s with
  | nil => rfl
  | cons f rest ih =>
      show Stack.Get (f :: rest) k = _
      unfold Stack.Get stackFind
      cases h : frameFind f k with
      | none => simpa [h] using ih
      | some v => simp [h]


theorem frameKeys_cons (k v : String) (rest : Frame) :
    frameKeys ((k, v) :: rest) = k :: frameKeys rest := rfl

theorem boundIn_iff_stackFind_isSome (s : Stack) (k : String) :
    boundIn s k = true ↔ (stackFind s k).isSome := by
  induction s with
  | nil => simp [boundIn, stackFind]
  | cons f rest ih =>
      show ((frameFind f k).isSome || boundIn rest k) = true ↔ _
      cases h : frameFind f k with
      | none =>
          simp only [stackFind, h, Option.isSome_none, Bool.false_or]
          exact ih
      | some v => simp [stackFind, h]

theorem frameFind_insert_self (f : Frame) (k v : String) :
    frameFind (frameInsert f k v) k = some v := by
  induction f with
  | nil => simp [frameInsert, frameFind]
  | cons kv rest ih =>
      obtain ⟨k', v'⟩ := kv
      unfold frameInsert
      by_cases h : k' = k
      · simp [h, frameFind]
      · simp only [h, if_false]
        unfold frameFind
        simp [h, ih]

theorem frameFind_insert_other (f : Frame) (k v q : String) (hq : q ≠ k) :
    frameFind (frameInsert f k v) q = frameFind f q := by
  have hkq : ¬ (k = q) := fun h => hq h.symm
  induction f with
  | nil => simp [frameInsert, frameFind, hkq]
  | cons kv rest ih =>
      obtain ⟨k', v'⟩ := kv
      unfold frameInsert
      by_cases h : k' = k
      · subst h
        simp only [if_pos rfl]
        show (if k' = q then some v else frameFind rest q) =
          if k' = q then some v' else frameFind rest q
        simp [hkq]
      · simp only [h, if_false]
        show (if k' = q then some v' else frameFind (frameInsert rest k v) q) =
          if k' = q then some v' else frameFind rest q
        by_cases h2 : k' = q
        · simp [h2]
        · simp [h2, ih]

theorem frameFind_eq_none_iff (f : Frame) (k : String) :
    frameFind f k = none ↔ k ∉ frameKeys f := by
  induction f with
  | nil => simp [frameFind, frameKeys]
  | cons kv rest ih =>
      obtain ⟨k', v'⟩ := kv
      show (if k' = k then some v' else frameFind rest k) = none ↔
        k ∉ frameKeys ((k', v') :: rest)
      rw [frameKeys_cons]
      by_cases h : k' = k
      · simp [h]
      · simp only [h, if_false, List.mem_cons, not_or]
        rw [ih]
        constructor
        · exact fun hn => ⟨fun he => h he.symm, hn⟩
        · exact fun hn => hn.2

theorem frameKeys_insert (f : Frame) (k v : String) :
    frameKeys (frameInsert f k v) =
      if k ∈ frameKeys f then frameKeys f else frameKeys f ++ [k] := by
  induction f with
  | nil => simp [frameInsert, frameKeys]
  | cons kv rest ih =>
      obtain ⟨k', v'⟩ := kv
      unfold frameInsert
      by_cases h : k' = k
      · subst h
        rw [if_pos rfl, frameKeys_cons, frameKeys_cons]
        simp
      · rw [if_neg h]
        show frameKeys ((k', v') :: frameInsert rest k v) = _
        rw [frameKeys_cons, frameKeys_cons, ih]
        have hkk : (k ∈ k' :: frameKeys rest) ↔ k ∈ frameKeys rest := by
          constructor
          · intro hc
            rcases List.mem_cons.mp hc with he | hm
            · exact absurd he.symm h
            · exact hm
          · exact fun hm => List.mem_cons.mpr (Or.inr hm)
        by_cases h2 : k ∈ frameKeys rest
        · rw [if_pos h2, if_pos (hkk.mpr h2)]
        · rw [if_neg h2, if_neg (fun hc => h2 (hkk.mp hc))]
          rfl

theorem wfFrame_insert (f : Frame) (k v : String) (h : WFFrame f) :
    WFFrame (frameInsert f k v) := by
  unfold WFFrame
  rw [frameKeys_insert]
  by_cases hk : k ∈ frameKeys f
  · simpa [hk] using h
  · simp only [hk, if_false]
    simpa [List.nodup_append] using ⟨h, hk⟩

/-- Merge one frame into an accumulator, entry by entry, as the inner
loop of the `allNames` construction does. -/
def mergeFrame (acc f : Frame) : Frame :=
  f.foldl (fun a kv => frameInsert a kv.1 kv.2) acc

theorem allNamesOf_nil : allNamesOf [] = [] := rfl

theorem frameFind_cons (k0 v0 k : String) (rest : Frame) :
    frameFind ((k0, v0) :: rest) k =
      if k0 = k then some v0 else frameFind rest k := rfl

theorem stackFind_cons (f : Frame) (rest : Stack) (k : String) :
    stackFind (f :: rest) k =
      match frameFind f k with
      | some v => some v
      | none => stackFind rest k := rfl

theorem allNamesOf_cons (f : Frame) (s : Stack) :
    allNamesOf (f :: s) = mergeFrame (allNamesOf s) f := by
  unfold allNamesOf mergeFrame
  rw [List.reverse_cons, List.foldl_append]
  rfl

theorem mergeFrame_find (f : Frame) (hf : WFFrame f) :
    ∀ (acc : Frame) (k : String),
      frameFind (mergeFrame acc f) k =
        match frameFind f k with
        | some v => some v
        | none => frameFind acc k := by
  induction f with
  | nil => intro acc k; rfl
  | cons kv rest ih =>
      intro acc k
      obtain ⟨k0, v0⟩ := kv
      have hwf : WFFrame rest := by
        have := hf
        rw [WFFrame, frameKeys_cons, List.nodup_cons] at this
        exact this.2
      have hnotin : k0 ∉ frameKeys rest := by
        have := hf
        rw [WFFrame, frameKeys_cons, List.nodup_cons] at this
        exact this.1
      have hstep : mergeFrame acc ((k0, v0) :: rest) =
          mergeFrame (frameInsert acc k0 v0) rest := rfl
      rw [hstep, ih hwf]
      by_cases hk : k0 = k
      · subst hk
        have h1 : frameFind rest k0 = none := (frameFind_eq_none_iff rest k0).mpr hnotin
        have h2 : frameFind ((k0, v0) :: rest) k0 = some v0 := by
          rw [frameFind_cons, if_pos rfl]
        rw [h1, h2]
        simp [frameFind_insert_self]
      · have h2 : frameFind ((k0, v0) :: rest) k = frameFind rest k := by
          rw [frameFind_cons, if_neg hk]
        rw [h2]
        cases h3 : frameFind rest k with
        | some v => rfl
        | none => simp [frameFind_insert_other acc k0 v0 k (fun h => hk h.symm)]

theorem mergeFrame_wf (f : Frame) :
    ∀ acc : Frame, WFFrame acc → WFFrame (mergeFrame acc f) := by
  induction f with
  | nil => intro acc h; exact h
  | cons kv rest ih =>
      intro acc h
      exact ih (frameInsert acc kv.1 kv.2) (wfFrame_insert acc kv.1 kv.2 h)

theorem allNamesOf_wf (s : Stack) : WFFrame (allNamesOf s) := by
  induction s with
  | nil => exact List.nodup_nil
  | cons f rest ih => rw [allNamesOf_cons]; exact mergeFrame_wf f _ ih

theorem allNamesOf_find (s : Stack) (k : String) (h : WFStack s) :
    frameFind (allNamesOf s) k = stackFind s k := by
  induction s with
  | nil => rfl
  | cons f rest ih =>
      have hf : WFFrame f := h f (List.mem_cons_self f rest)
      have hrest : WFStack rest := fun g hg => h g (List.mem_cons_of_mem f hg)
      rw [allNamesOf_cons, mergeFrame_find f hf, ih hrest, stackFind_cons]

/-- The attribute name the injection uses for prefix `p`. -/
def declNameOf (p : String) : XmlName :=
  if p = "" then ⟨"", "xmlns"⟩ else ⟨"xmlns", p⟩

theorem declAttrOf_eq (kv : String × String) :
    declAttrOf kv = ⟨declNameOf kv.1, kv.2⟩ := by
  unfold declAttrOf declNameOf
  by_cases h : kv.1 = "" <;> simp [h]

theorem declNameOf_inj (p q : String) (h : declNameOf p = declNameOf q) :
    p = q := by
  unfold declNameOf at h
  by_cases hp : p = "" <;> by_cases hq : q = ""
  · rw [hp, hq]
  · rw [if_pos hp, if_neg hq] at h
    have hs := congrArg XmlName.space h
    simp at hs
  · rw [if_neg hp, if_pos hq] at h
    have hs := congrArg XmlName.space h
    simp at hs
  · rw [if_neg hp, if_neg hq] at h
    exact congrArg XmlName.localName h

theorem frameFind_of_mem (g : Frame) (k v : String) (hg : WFFrame g)
    (hm : (k, v) ∈ g) : frameFind g k = some v := by
  induction g with
  | nil => exact absurd hm (List.not_mem_nil _)
  | cons kv rest ih =>
      obtain ⟨k0, v0⟩ := kv
      have hwf : WFFrame rest := by
        have := hg; rw [WFFrame, frameKeys_cons, List.nodup_cons] at this
        exact this.2
      have hnotin : k0 ∉ frameKeys rest := by
        have := hg; rw [WFFrame, frameKeys_cons, List.nodup_cons] at this
        exact this.1
      rcases List.mem_cons.mp hm with he | hm2
      · cases he
        rw [frameFind_cons, if_pos rfl]
      · have hk : k0 ≠ k := by
          intro he2
          subst he2
          exact hnotin (List.mem_map_of_mem Prod.fst hm2)
        rw [frameFind_cons, if_neg hk]
        exact ih hwf hm2

theorem filter_decl_of_not_mem (g : Frame) (p : String)
    (hp : p ∉ frameKeys g) :
    (g.map declAttrOf).filter (fun a => a.name = declNameOf p) = [] := by
  induction g with
  | nil => rfl
  | cons kv rest ih =>
      obtain ⟨k0, v0⟩ := kv
      rw [frameKeys_cons] at hp
      have hk : p ≠ k0 := fun he => hp (List.mem_cons.mpr (Or.inl he))
      have hrest : p ∉ frameKeys rest :=
        fun hm => hp (List.mem_cons.mpr (Or.inr hm))
      have hname : ¬ ((declAttrOf (k0, v0)).name = declNameOf p) := by
        rw [declAttrOf_eq]
        exact fun he => hk (declNameOf_inj p k0 he.symm)
      simp only [List.map_cons, List.filter_cons]
      simp [hname, ih hrest]

theorem filter_decl_of_wf (g : Frame) (p : String) (hg : WFFrame g) :
    (g.map declAttrOf).filter (fun a => a.name = declNameOf p) =
      (match frameFind g p with
       | some v => [⟨declNameOf p, v⟩]
       | none => ([] : List XmlAttr)) := by
  induction g with
  | nil => rfl
  | cons kv rest ih =>
      obtain ⟨k0, v0⟩ := kv
      have hwf : WFFrame rest := by
        have := hg; rw [WFFrame, frameKeys_cons, List.nodup_cons] at this
        exact this.2
      have hnotin : k0 ∉ frameKeys rest := by
        have := hg; rw [WFFrame, frameKeys_cons, List.nodup_cons] at this
        exact this.1
      rw [frameFind_cons]
      by_cases hk : k0 = p
      · subst hk
        have hname : (declAttrOf (k0, v0)).name = declNameOf k0 := by
          rw [declAttrOf_eq]
        simp [List.filter_cons, hname,
          filter_decl_of_not_mem rest k0 hnotin, declAttrOf_eq]
      · have hname : ¬ ((declAttrOf (k0, v0)).name = declNameOf p) := by
          rw [declAttrOf_eq]
          exact fun he => hk (declNameOf_inj k0 p he)
        simp only [List.map_cons, List.filter_cons, hname, decide_False,
          Bool.false_eq_true, if_false]
        rw [if_neg hk, ih hwf]

theorem wfFrame_foldl_attrs (attrs : List XmlAttr) :
    ∀ init : Frame, WFFrame init →
      WFFrame (attrs.foldl
        (fun names attr =>
          if attr.name.space = "xmlns" then
            frameInsert names attr.name.localName attr.value
          else if attr.name.space = "" ∧ attr.name.localName = "xmlns" then
            frameInsert names "" attr.value
          else names)
        init) := by
  induction attrs with
  | nil => intro init h; exact h
  | cons a rest ih =>
      intro init h
      simp only [List.foldl_cons]
      apply ih
      by_cases h1 : a.name.space = "xmlns"
      · simpa [h1] using wfFrame_insert init a.name.localName a.value h
      · by_cases h2 : a.name.space = "" ∧ a.name.localName = "xmlns"
        · simpa [h1, h2] using wfFrame_insert init "" a.value h
        · simpa [h1, h2] using h

theorem wfFrame_framesOfAttrs (attrs : List XmlAttr) :
    WFFrame (framesOfAttrs attrs) :=
  wfFrame_foldl_attrs attrs [] List.nodup_nil

/-! ## Claim C2 -/

/-- C2: when `SplitSignature` meets a `StartElement` whose post-push
depth is 3 and whose name resolves to the XML-DSig `SignedInfo`, the
token appended to the inner buffer is the element with the injected
declaration attributes appended after its own; for every prefix bound
anywhere in the post-push stack — the empty prefix included — exactly
one declaration attribute is injected (named `xmlns` for the empty
prefix, with prefix `xmlns` and local name `p` otherwise) and its value
is the topmost binding `Stack.Get`; an unbound prefix gets none, and
every injected attribute is of that shape. -/
theorem signedInfo_entry_injects_topmost_bindings
    (st : SplitState) (name : XmlName) (attrs : List XmlAttr) (S : Stack)
    (hS : S = Stack.Push st.stack (framesOfAttrs attrs))
    (hwf : WFStack st.stack)
    (hd : Stack.Len S = signedInfoDepth + 1)
    (hres : (⟨Stack.Get S name.space, name.localName⟩ : XmlName) = signedInfoName) :
    ∃ st', step st (Token.startElement name attrs) = some st' ∧
      st'.inner = st.inner ++
        [Token.startElement name (attrs ++ injectedAttrs S)] ∧
      (∀ p : String,
        (injectedAttrs S).filter (fun a => a.name = declNameOf p) =
          (if boundIn S p
           then [⟨declNameOf p, Stack.Get S p⟩]
           else ([] : List XmlAttr))) ∧
      (∀ a ∈ injectedAttrs S,
        ∃ p : String, boundIn S p = true ∧
          a = ⟨declNameOf p, Stack.Get S p⟩) := by
  subst hS
  have hwfS : WFStack (Stack.Push st.stack (framesOfAttrs attrs)) := by
    intro f hf
    rcases List.mem_cons.mp hf with he | hf'
    · rw [he]; exact wfFrame_framesOfAttrs attrs
    · exact hwf f hf'
  have hhit : Stack.Len (Stack.Push st.stack (framesOfAttrs attrs)) =
      signedInfoDepth + 1 ∧
      (⟨Stack.Get (Stack.Push st.stack (framesOfAttrs attrs)) name.space,
        name.localName⟩ : XmlName) = signedInfoName := ⟨hd, hres⟩
  refine ⟨_, rfl, ?_, ?_, ?_⟩
  · simp only [step]
    simp only [if_pos hhit]
    simp
  · intro p
    show ((allNamesOf _).map declAttrOf).filter _ = _
    rw [filter_decl_of_wf _ p (allNamesOf_wf _),
      allNamesOf_find _ p hwfS]
    cases hb : stackFind (Stack.Push st.stack (framesOfAttrs attrs)) p with
    | some v =>
        have hbd : boundIn (Stack.Push st.stack (framesOfAttrs attrs)) p = true := by
          rw [boundIn_iff_stackFind_isSome, hb]; rfl
        rw [if_pos hbd, get_eq_stackFind_getD, hb]
        rfl
    | none =>
        have hbd : ¬ boundIn (Stack.Push st.stack (framesOfAttrs attrs)) p = true := by
          rw [boundIn_iff_stackFind_isSome, hb]; exact fun h => nomatch h
        rw [if_neg hbd]
  · intro a ha
    obtain ⟨kv, hkv, he⟩ := List.mem_map.mp ha
    have hf : frameFind (allNamesOf (Stack.Push st.stack (framesOfAttrs attrs))) kv.1 =
        some kv.2 :=
      frameFind_of_mem _ kv.1 kv.2 (allNamesOf_wf _) hkv
    have hsf : stackFind (Stack.Push st.stack (framesOfAttrs attrs)) kv.1 = some kv.2 := by
      rw [← allNamesOf_find _ kv.1 hwfS]; exact hf
    refine ⟨kv.1, ?_, ?_⟩
    · rw [boundIn_iff_stackFind_isSome, hsf]; rfl
    · rw [← he, declAttrOf_eq, get_eq_stackFind_getD, hsf]
      rfl

/-! ## Balanced streams as forests

A balanced token stream is exactly the flattening of a forest of XML
nodes: an element node opens, emits its children, and closes; the other
nodes are single tokens. The claims over balanced streams with a
structural hypothesis (the position of `Signature` and `SignedInfo`)
are stated over this representation. -/

mutual
inductive Node where
  | elem (name : XmlName) (attrs : List XmlAttr) (children : Forest)
  | textLeaf (s : String)
  | commentLeaf (s : String)
  | piLeaf (s : String)
  | directiveLeaf (s : String)
  deriving DecidableEq
inductive Forest where
  | nil
  | cons (n : Node) (f : Forest)
  deriving DecidableEq
end

mutual
def flattenNode : Node → List Token
  | .elem n a c => Token.startElement n a :: (flattenForest c ++ [Token.endElement n])
  | .textLeaf s => [Token.charData s]
  | .commentLeaf s => [Token.comment s]
  | .piLeaf s => [Token.procInst s]
  | .directiveLeaf s => [Token.directive s]
def flattenForest : Forest → List Token
  | .nil => []
  | .cons n f => flattenNode n ++ flattenForest f
end

/-- Concatenation of forests. -/
def Forest.cat : Forest → Forest → Forest
  | .nil, g => g
  | .cons n f, g => .cons n (Forest.cat f g)

theorem flattenForest_cat : ∀ (f g : Forest),
    flattenForest (Forest.cat f g) = flattenForest f ++ flattenForest g
  | .nil, _ => rfl
  | .cons n f, g => by
      show flattenNode n ++ flattenForest (Forest.cat f g) =
        (flattenNode n ++ flattenForest f) ++ flattenForest g
      rw [flattenForest_cat f g, List.append_assoc]

mutual
/-- `neutralNode s nd`: walked with base stack `s`, the node never
reaches a state the splitter reacts to — no element of the subtree is a
depth-1 `Signature` or a depth-2 `SignedInfo` after name resolution. -/
def neutralNode (s : Stack) : Node → Bool
  | .elem n a c =>
      (!(decide (Stack.Len (Stack.Push s (framesOfAttrs a)) = signatureDepth + 1 ∧
          (⟨Stack.Get (Stack.Push s (framesOfAttrs a)) n.space, n.localName⟩ : XmlName) =
            signatureName))) &&
      ((!(decide (Stack.Len (Stack.Push s (framesOfAttrs a)) = signedInfoDepth + 1 ∧
          (⟨Stack.Get (Stack.Push s (framesOfAttrs a)) n.space, n.localName⟩ : XmlName) =
            signedInfoName))) &&
        neutralForest (Stack.Push s (framesOfAttrs a)) c)
  | _ => true
/-- All nodes of the forest are neutral relative to base stack `s`. -/
def neutralForest (s : Stack) : Forest → Bool
  | .nil => true
  | .cons n f => neutralNode s n && neutralForest s f
end

mutual
def nodeSize : Node → Nat
  | .elem _ _ c => 1 + forestSize c
  | _ => 1
def forestSize : Forest → Nat
  | .nil => 0
  | .cons n f => nodeSize n + forestSize f
end

theorem nodeSize_pos (nd : Node) : 1 ≤ nodeSize nd := by
  cases nd <;> simp [nodeSize]

theorem processTokens_append (st : SplitState) (l1 l2 : List Token) :
    processTokens st (l1 ++ l2) =
      match processTokens st l1 with
      | none => none
      | some st1 => processTokens st1 l2 := by
  induction l1 generalizing st with
  | nil => rfl
  | cons t rest ih =>
      show processTokens st (t :: (rest ++ l2)) = _
      cases h : step st t with
      | none => simp [processTokens, h]
      | some st1 => simp [processTokens, h, ih]

theorem neutral_leaf_cons (st : SplitState) (t : Token) (rest : Forest)
    (hstep : step st t = some
      ⟨(if st.inSignature then st.outer else st.outer ++ [t]),
       (if st.inSignedInfo then st.inner ++ [t] else st.inner),
       st.inSignature, st.inSignedInfo, st.stack⟩)
    (hrest : processTokens
        ⟨(if st.inSignature then st.outer else st.outer ++ [t]),
         (if st.inSignedInfo then st.inner ++ [t] else st.inner),
         st.inSignature, st.inSignedInfo, st.stack⟩ (flattenForest rest) =
      some ⟨(if st.inSignature then st.outer else st.outer ++ [t]) ++
              (if st.inSignature then [] else flattenForest rest),
            (if st.inSignedInfo then st.inner ++ [t] else st.inner) ++
              (if st.inSignedInfo then flattenForest rest else []),
            st.inSignature, st.inSignedInfo, st.stack⟩) :
    processTokens st (t :: flattenForest rest) =
      some ⟨st.outer ++ (if st.inSignature then [] else t :: flattenForest rest),
            st.inner ++ (if st.inSignedInfo then t :: flattenForest rest else []),
            st.inSignature, st.inSignedInfo, st.stack⟩ := by
  show (match step st t with
        | none => none
        | some st1 => processTokens st1 (flattenForest rest)) = _
  rw [hstep]
  show processTokens _ (flattenForest rest) = _
  rw [hrest]
  cases hbs : st.inSignature <;> cases hbi : st.inSignedInfo <;>
    simp [hbs, hbi, List.append_assoc]

theorem neutral_walk :
    ∀ (k : Nat) (f : Forest) (st : SplitState),
      forestSize f ≤ k →
      neutralForest st.stack f = true →
      (st.inSignature = true → 2 ≤ st.stack.length) →
      (st.inSignedInfo = true → 3 ≤ st.stack.length) →
      processTokens st (flattenForest f) =
        some ⟨st.outer ++ (if st.inSignature then [] else flattenForest f),
              st.inner ++ (if st.inSignedInfo then flattenForest f else []),
              st.inSignature, st.inSignedInfo, st.stack⟩ := by
  intro k
  induction k with
  | zero =>
      intro f st hsz hn hsig hsi
      cases f with
      | nil => simp [flattenForest, processTokens]
      | cons nd rest =>
          exfalso
          have h1 := nodeSize_pos nd
          have h2 : forestSize (Forest.cons nd rest) = nodeSize nd + forestSize rest := rfl
          omega
  | succ k ih =>
      intro f st hsz hn hsig hsi
      cases f with
      | nil => simp [flattenForest, processTokens]
      | cons nd rest =>
          rw [show neutralForest st.stack (Forest.cons nd rest) =
            (neutralNode st.stack nd && neutralForest st.stack rest) from rfl,
            Bool.and_eq_true] at hn
          obtain ⟨hn1, hn2⟩ := hn
          have hszc : forestSize (Forest.cons nd rest) = nodeSize nd + forestSize rest := rfl
          have hrestsz : forestSize rest ≤ k := by
            have h1 := nodeSize_pos nd
            omega
          cases nd with
          | textLeaf s =>
              exact neutral_leaf_cons st (Token.charData s) rest rfl
                (ih rest _ hrestsz hn2 hsig hsi)
          | commentLeaf s =>
              exact neutral_leaf_cons st (Token.comment s) rest rfl
                (ih rest _ hrestsz hn2 hsig hsi)
          | piLeaf s =>
              exact neutral_leaf_cons st (Token.procInst s) rest rfl
                (ih rest _ hrestsz hn2 hsig hsi)
          | directiveLeaf s =>
              exact neutral_leaf_cons st (Token.directive s) rest rfl
                (ih rest _ hrestsz hn2 hsig hsi)
          | elem n a c =>
              simp only [neutralNode, Bool.and_eq_true, Bool.not_eq_true',
                decide_eq_false_iff_not] at hn1
              obtain ⟨hc1, hc2, hnc⟩ := hn1
              have hcsz : forestSize c ≤ k := by
                have h2 : nodeSize (Node.elem n a c) = 1 + forestSize c := rfl
                omega
              have hstep : step st (Token.startElement n a) = some
                  ⟨(if st.inSignature then st.outer
                    else st.outer ++ [Token.startElement n a]),
                   (if st.inSignedInfo then st.inner ++ [Token.startElement n a]
                    else st.inner),
                   st.inSignature, st.inSignedInfo,
                   Stack.Push st.stack (framesOfAttrs a)⟩ := by
                simp only [step, if_neg hc1, if_neg hc2]
              have hsig1 : st.inSignature = true →
                  2 ≤ (Stack.Push st.stack (framesOfAttrs a)).length := by
                intro h
                have := hsig h
                simp only [Stack.Push, List.length_cons]
                omega
              have hsi1 : st.inSignedInfo = true →
                  3 ≤ (Stack.Push st.stack (framesOfAttrs a)).length := by
                intro h
                have := hsi h
                simp only [Stack.Push, List.length_cons]
                omega
              have ihc := ih c
                ⟨(if st.inSignature then st.outer
                  else st.outer ++ [Token.startElement n a]),
                 (if st.inSignedInfo then st.inner ++ [Token.startElement n a]
                  else st.inner),
                 st.inSignature, st.inSignedInfo,
                 Stack.Push st.stack (framesOfAttrs a)⟩ hcsz hnc hsig1 hsi1
              have hclear1 : ¬ (st.stack.length = signatureDepth ∧
                  st.inSignature = true) := by
                intro hcl
                have := hsig hcl.2
                rw [signatureDepth] at hcl
                omega
              have hclear2 : ¬ (st.stack.length = signedInfoDepth ∧
                  st.inSignedInfo = true) := by
                intro hcl
                have := hsi hcl.2
                rw [signedInfoDepth] at hcl
                omega
              have hkey : processTokens st
                  (flattenForest (Forest.cons (Node.elem n a c) rest)) =
                  processTokens
                    ⟨(if st.inSignature then st.outer
                      else st.outer ++ [Token.startElement n a]),
                     (if st.inSignedInfo then st.inner ++ [Token.startElement n a]
                      else st.inner),
                     st.inSignature, st.inSignedInfo,
                     Stack.Push st.stack (framesOfAttrs a)⟩
                    ((flattenForest c ++ [Token.endElement n]) ++ flattenForest rest) := by
                show (match step st (Token.startElement n a) with
                      | none => none
                      | some st1 => processTokens st1
                          ((flattenForest c ++ [Token.endElement n]) ++ flattenForest rest)) = _
                rw [hstep]
              rw [hkey, List.append_assoc, processTokens_append, ihc]
              show processTokens _ (Token.endElement n :: flattenForest rest) = _
              have hstep2 : step
                  ⟨(if st.inSignature then st.outer
                    else st.outer ++ [Token.startElement n a]) ++
                      (if st.inSignature then [] else flattenForest c),
                   (if st.inSignedInfo then st.inner ++ [Token.startElement n a]
                    else st.inner) ++
                      (if st.inSignedInfo then flattenForest c else []),
                   st.inSignature, st.inSignedInfo,
                   Stack.Push st.stack (framesOfAttrs a)⟩ (Token.endElement n) = some
                  ⟨(if st.inSignature then
                      (if st.inSignature then st.outer
                       else st.outer ++ [Token.startElement n a]) ++
                        (if st.inSignature then [] else flattenForest c)
                    else ((if st.inSignature then st.outer
                       else st.outer ++ [Token.startElement n a]) ++
                        (if st.inSignature then [] else flattenForest c)) ++
                        [Token.endElement n]),
                   (if st.inSignedInfo then
                      ((if st.inSignedInfo then st.inner ++ [Token.startElement n a]
                       else st.inner) ++
                        (if st.inSignedInfo then flattenForest c else [])) ++
                        [Token.endElement n]
                    else (if st.inSignedInfo then st.inner ++ [Token.startElement n a]
                       else st.inner) ++
                        (if st.inSignedInfo then flattenForest c else [])),
                   st.inSignature, st.inSignedInfo, st.stack⟩ := by
                simp only [step, Stack.Push, if_neg hclear1, if_neg hclear2]
              show (match step
                  ⟨(if st.inSignature then st.outer
                    else st.outer ++ [Token.startElement n a]) ++
                      (if st.inSignature then [] else flattenForest c),
                   (if st.inSignedInfo then st.inner ++ [Token.startElement n a]
                    else st.inner) ++
                      (if st.inSignedInfo then flattenForest c else []),
                   st.inSignature, st.inSignedInfo,
                   Stack.Push st.stack (framesOfAttrs a)⟩ (Token.endElement n) with
                | none => none
                | some st1 => processTokens st1 (flattenForest rest)) = _
              rw [hstep2]
              show processTokens _ (flattenForest rest) = _
              have hfin := ih rest
                ⟨(if st.inSignature then
                    (if st.inSignature then st.outer
                     else st.outer ++ [Token.startElement n a]) ++
                      (if st.inSignature then [] else flattenForest c)
                  else ((if st.inSignature then st.outer
                     else st.outer ++ [Token.startElement n a]) ++
                      (if st.inSignature then [] else flattenForest c)) ++
                      [Token.endElement n]),
                 (if st.inSignedInfo then
                    ((if st.inSignedInfo then st.inner ++ [Token.startElement n a]
                     else st.inner) ++
                      (if st.inSignedInfo then flattenForest c else [])) ++
                      [Token.endElement n]
                  else (if st.inSignedInfo then st.inner ++ [Token.startElement n a]
                     else st.inner) ++
                      (if st.inSignedInfo then flattenForest c else [])),
                 st.inSignature, st.inSignedInfo, st.stack⟩
                hrestsz hn2 hsig hsi
              rw [hfin]
              cases hbs : st.inSignature <;> cases hbi : st.inSignedInfo <;>
                simp [hbs, hbi, List.append_assoc, flattenForest, flattenNode]

mutual
theorem neutralNode_of_deep : ∀ (nd : Node) (s : Stack), 3 ≤ s.length →
    neutralNode s nd = true
  | .elem n a c, s, h => by
      have h1 : ¬ (Stack.Len (Stack.Push s (framesOfAttrs a)) = signatureDepth + 1 ∧
          (⟨Stack.Get (Stack.Push s (framesOfAttrs a)) n.space, n.localName⟩ : XmlName) =
            signatureName) := by
        intro hc
        have := hc.1
        simp only [Stack.Len, Stack.Push, List.length_cons, signatureDepth] at this
        omega
      have h2 : ¬ (Stack.Len (Stack.Push s (framesOfAttrs a)) = signedInfoDepth + 1 ∧
          (⟨Stack.Get (Stack.Push s (framesOfAttrs a)) n.space, n.localName⟩ : XmlName) =
            signedInfoName) := by
        intro hc
        have := hc.1
        simp only [Stack.Len, Stack.Push, List.length_cons, signedInfoDepth] at this
        omega
      have h3 : 3 ≤ (Stack.Push s (framesOfAttrs a)).length := by
        simp only [Stack.Push, List.length_cons]
        omega
      show ((!(decide _)) && ((!(decide _)) && neutralForest _ c)) = true
      rw [decide_eq_false h1, decide_eq_false h2,
        neutralForest_of_deep c (Stack.Push s (framesOfAttrs a)) h3]
      rfl
  | .textLeaf _, _, _ => rfl
  | .commentLeaf _, _, _ => rfl
  | .piLeaf _, _, _ => rfl
  | .directiveLeaf _, _, _ => rfl
theorem neutralForest_of_deep : ∀ (f : Forest) (s : Stack), 3 ≤ s.length →
    neutralForest s f = true
  | .nil, _, _ => rfl
  | .cons nd f, s, h => by
      show (neutralNode s nd && neutralForest s f) = true
      rw [neutralNode_of_deep nd s h, neutralForest_of_deep f s h]
      rfl
end

/-! ## Claim C5 -/

/-- C5 counterexample: the claim fails as stated on two concrete
streams. In the first, a `Signature` at post-push depth 4 sits inside
the depth-1 `Signature`: its tokens are dropped from outer, not copied.
In the second, the root element itself (post-push depth 1, also "not
2") resolves to `Signature`: its depth-1 child does set `inSignature`,
and the subtree is again not copied whole into outer. -/
theorem deep_signature_counterexample :
    (splitTokens
        [Token.startElement ⟨"", "Root"⟩ [],
         Token.startElement ⟨"", "Signature"⟩
           [⟨⟨"", "xmlns"⟩, "http://www.w3.org/2000/09/xmldsig#"⟩],
         Token.startElement ⟨"", "Foo"⟩ [],
         Token.startElement ⟨"", "Signature"⟩ [],
         Token.endElement ⟨"", "Signature"⟩,
         Token.endElement ⟨"", "Foo"⟩,
         Token.endElement ⟨"", "Signature"⟩,
         Token.endElement ⟨"", "Root"⟩] =
      SplitOutcome.ok
        [Token.startElement ⟨"", "Root"⟩ [], Token.endElement ⟨"", "Root"⟩] [] ∧
     Token.startElement ⟨"", "Signature"⟩ [] ∉
       [Token.startElement ⟨"", "Root"⟩ [], Token.endElement ⟨"", "Root"⟩]) ∧
    (splitTokens
        [Token.startElement ⟨"", "Signature"⟩
           [⟨⟨"", "xmlns"⟩, "http://www.w3.org/2000/09/xmldsig#"⟩],
         Token.startElement ⟨"", "Signature"⟩ [],
         Token.endElement ⟨"", "Signature"⟩,
         Token.endElement ⟨"", "Signature"⟩] =
      SplitOutcome.ok
        [Token.startElement ⟨"", "Signature"⟩
           [⟨⟨"", "xmlns"⟩, "http://www.w3.org/2000/09/xmldsig#"⟩],
         Token.endElement ⟨"", "Signature"⟩] [] ∧
     Token.startElement ⟨"", "Signature"⟩ [] ∉
       [Token.startElement ⟨"", "Signature"⟩
          [⟨⟨"", "xmlns"⟩, "http://www.w3.org/2000/09/xmldsig#"⟩],
        Token.endElement ⟨"", "Signature"⟩]) := by
  decide

/-- C5 (amended): a `StartElement` resolving to the XML-DSig
`Signature` name never sets `inSignature` when its post-push depth is
not 2; and if such an element is met at post-push depth at least 3,
outside the depth-1 Signature and outside any SignedInfo region (both
flags clear), its whole balanced subtree is copied verbatim into the
outer buffer while the inner buffer, both flags and the stack are left
exactly as they were. -/
theorem deep_signature_inert
    (st : SplitState) (n : XmlName) (a : List XmlAttr) (c : Forest)
    (st' : SplitState) :
    (Stack.Len (Stack.Push st.stack (framesOfAttrs a)) ≠ signatureDepth + 1 →
      step st (Token.startElement n a) = some st' →
      st'.inSignature = st.inSignature) ∧
    (st.inSignature = false → st.inSignedInfo = false →
      2 ≤ st.stack.length →
      (⟨Stack.Get (Stack.Push st.stack (framesOfAttrs a)) n.space,
        n.localName⟩ : XmlName) = signatureName →
      processTokens st (flattenNode (Node.elem n a c)) =
        some { st with outer := st.outer ++ flattenNode (Node.elem n a c) }) := by
  constructor
  · intro hdep hstep
    have h1 : ¬ (Stack.Len (Stack.Push st.stack (framesOfAttrs a)) =
        signatureDepth + 1 ∧
        (⟨Stack.Get (Stack.Push st.stack (framesOfAttrs a)) n.space,
          n.localName⟩ : XmlName) = signatureName) :=
      fun hc => hdep hc.1
    simp only [step, if_neg h1, Option.some.injEq] at hstep
    subst hstep
    by_cases h2 : Stack.Len (Stack.Push st.stack (framesOfAttrs a)) =
        signedInfoDepth + 1 ∧
        (⟨Stack.Get (Stack.Push st.stack (framesOfAttrs a)) n.space,
          n.localName⟩ : XmlName) = signedInfoName <;> simp [h2]
  · intro hsigf hsif hdep hres
    have hne : ¬ (Stack.Len (Stack.Push st.stack (framesOfAttrs a)) =
        signatureDepth + 1 ∧
        (⟨Stack.Get (Stack.Push st.stack (framesOfAttrs a)) n.space,
          n.localName⟩ : XmlName) = signatureName) := by
      intro hc
      have := hc.1
      simp only [Stack.Len, Stack.Push, List.length_cons, signatureDepth] at this
      omega
    have hne2 : ¬ (Stack.Len (Stack.Push st.stack (framesOfAttrs a)) =
        signedInfoDepth + 1 ∧
        (⟨Stack.Get (Stack.Push st.stack (framesOfAttrs a)) n.space,
          n.localName⟩ : XmlName) = signedInfoName) := by
      intro hc
      have hx := hc.2
      rw [hres] at hx
      exact absurd hx (by decide)
    have hneu : neutralForest st.stack
        (Forest.cons (Node.elem n a c) Forest.nil) = true := by
      show (neutralNode st.stack (Node.elem n a c) && true) = true
      rw [Bool.and_true]
      show ((!(decide _)) && ((!(decide _)) && neutralForest _ c)) = true
      rw [decide_eq_false hne, decide_eq_false hne2,
        neutralForest_of_deep c (Stack.Push st.stack (framesOfAttrs a))
          (by simp only [Stack.Push, List.length_cons]; omega)]
      rfl
    have hw := neutral_walk (forestSize (Forest.cons (Node.elem n a c) Forest.nil))
      (Forest.cons (Node.elem n a c) Forest.nil) st le_rfl hneu
      (fun h => absurd (hsigf ▸ h) (by decide))
      (fun h => absurd (hsif ▸ h) (by decide))
    have hfl : flattenForest (Forest.cons (Node.elem n a c) Forest.nil) =
        flattenNode (Node.elem n a c) := by
      show flattenNode (Node.elem n a c) ++ [] = _
      rw [List.append_nil]
    rw [hfl] at hw
    rw [hw, hsigf, hsif]
    simp

theorem deep_signature_inert_witness :
    ((⟨[Token.startElement ⟨"", "Signature"⟩ []], [], false, false,
       [[], [("", "http://www.w3.org/2000/09/xmldsig#")], []]⟩ : SplitState).inSignature =
      (⟨[], [], false, false,
        [[("", "http://www.w3.org/2000/09/xmldsig#")], []]⟩ : SplitState).inSignature) ∧
    processTokens
        (⟨[], [], false, false,
          [[("", "http://www.w3.org/2000/09/xmldsig#")], []]⟩ : SplitState)
        (flattenNode (Node.elem ⟨"", "Signature"⟩ [] Forest.nil)) =
      some { (⟨[], [], false, false,
               [[("", "http://www.w3.org/2000/09/xmldsig#")], []]⟩ : SplitState) with
             outer := ([] : List Token) ++
               flattenNode (Node.elem ⟨"", "Signature"⟩ [] Forest.nil) } := by
  obtain ⟨h1, h2⟩ := deep_signature_inert
    ⟨[], [], false, false, [[("", "http://www.w3.org/2000/09/xmldsig#")], []]⟩
    ⟨"", "Signature"⟩ [] Forest.nil
    ⟨[Token.startElement ⟨"", "Signature"⟩ []], [], false, false,
     [[], [("", "http://www.w3.org/2000/09/xmldsig#")], []]⟩
  exact ⟨h1 (by decide) (by decide), h2 rfl rfl (by decide) (by decide)⟩

/-! ## Claim C1 -/

/-- C1 counterexample: the inner buffer is not the verbatim
`SignedInfo` subtree. On a minimal document its start tag carries an
injected `xmlns` declaration the input token did not have; and on a
document with a second depth-2 element resolving to
`{dsig, SignedInfo}` outside the Signature, the inner buffer also
receives that unrelated subtree (and the outer buffer receives its
start tag in augmented, not input, form). -/
theorem split_buffers_counterexample :
    (splitTokens
        [Token.startElement ⟨"", "Root"⟩ [],
         Token.startElement ⟨"", "Signature"⟩
           [⟨⟨"", "xmlns"⟩, "http://www.w3.org/2000/09/xmldsig#"⟩],
         Token.startElement ⟨"", "SignedInfo"⟩ [],
         Token.endElement ⟨"", "SignedInfo"⟩,
         Token.endElement ⟨"", "Signature"⟩,
         Token.endElement ⟨"", "Root"⟩] =
      SplitOutcome.ok
        [Token.startElement ⟨"", "Root"⟩ [], Token.endElement ⟨"", "Root"⟩]
        [Token.startElement ⟨"", "SignedInfo"⟩
           [⟨⟨"", "xmlns"⟩, "http://www.w3.org/2000/09/xmldsig#"⟩],
         Token.endElement ⟨"", "SignedInfo"⟩] ∧
     [Token.startElement ⟨"", "SignedInfo"⟩
        [⟨⟨"", "xmlns"⟩, "http://www.w3.org/2000/09/xmldsig#"⟩],
      Token.endElement ⟨"", "SignedInfo"⟩] ≠
       [Token.startElement ⟨"", "SignedInfo"⟩ [],
        Token.endElement ⟨"", "SignedInfo"⟩]) ∧
    (splitTokens
        [Token.startElement ⟨"", "Root"⟩ [],
         Token.startElement ⟨"", "Signature"⟩
           [⟨⟨"", "xmlns"⟩, "http://www.w3.org/2000/09/xmldsig#"⟩],
         Token.startElement ⟨"", "SignedInfo"⟩ [],
         Token.endElement ⟨"", "SignedInfo"⟩,
         Token.endElement ⟨"", "Signature"⟩,
         Token.startElement ⟨"", "A"⟩ [],
         Token.startElement ⟨"ds", "SignedInfo"⟩
           [⟨⟨"xmlns", "ds"⟩, "http://www.w3.org/2000/09/xmldsig#"⟩],
         Token.endElement ⟨"ds", "SignedInfo"⟩,
         Token.endElement ⟨"", "A"⟩,
         Token.endElement ⟨"", "Root"⟩] =
      SplitOutcome.ok
        [Token.startElement ⟨"", "Root"⟩ [],
         Token.startElement ⟨"", "A"⟩ [],
         Token.startElement ⟨"ds", "SignedInfo"⟩
           [⟨⟨"xmlns", "ds"⟩, "http://www.w3.org/2000/09/xmldsig#"⟩,
            ⟨⟨"xmlns", "ds"⟩, "http://www.w3.org/2000/09/xmldsig#"⟩],
         Token.endElement ⟨"ds", "SignedInfo"⟩,
         Token.endElement ⟨"", "A"⟩,
         Token.endElement ⟨"", "Root"⟩]
        [Token.startElement ⟨"", "SignedInfo"⟩
           [⟨⟨"", "xmlns"⟩, "http://www.w3.org/2000/09/xmldsig#"⟩],
         Token.endElement ⟨"", "SignedInfo"⟩,
         Token.startElement ⟨"ds", "SignedInfo"⟩
           [⟨⟨"xmlns", "ds"⟩, "http://www.w3.org/2000/09/xmldsig#"⟩,
            ⟨⟨"xmlns", "ds"⟩, "http://www.w3.org/2000/09/xmldsig#"⟩],
         Token.endElement ⟨"ds", "SignedInfo"⟩] ∧
     Token.endElement ⟨"ds", "SignedInfo"⟩ ∈
       [Token.startElement ⟨"", "SignedInfo"⟩
          [⟨⟨"", "xmlns"⟩, "http://www.w3.org/2000/09/xmldsig#"⟩],
        Token.endElement ⟨"", "SignedInfo"⟩,
        Token.startElement ⟨"ds", "SignedInfo"⟩
          [⟨⟨"xmlns", "ds"⟩, "http://www.w3.org/2000/09/xmldsig#"⟩,
           ⟨⟨"xmlns", "ds"⟩, "http://www.w3.org/2000/09/xmldsig#"⟩],
        Token.endElement ⟨"ds", "SignedInfo"⟩] ∧
     Token.startElement ⟨"ds", "SignedInfo"⟩
       [⟨⟨"xmlns", "ds"⟩, "http://www.w3.org/2000/09/xmldsig#"⟩] ∉
       [Token.startElement ⟨"", "Root"⟩ [],
        Token.startElement ⟨"", "A"⟩ [],
        Token.startElement ⟨"ds", "SignedInfo"⟩
          [⟨⟨"xmlns", "ds"⟩, "http://www.w3.org/2000/09/xmldsig#"⟩,
           ⟨⟨"xmlns", "ds"⟩, "http://www.w3.org/2000/09/xmldsig#"⟩],
        Token.endElement ⟨"ds", "SignedInfo"⟩,
        Token.endElement ⟨"", "A"⟩,
        Token.endElement ⟨"", "Root"⟩]) := by
  decide

theorem processTokens_append_bind (st : SplitState) (l1 l2 : List Token) :
    processTokens st (l1 ++ l2) =
      (processTokens st l1).bind (fun st1 => processTokens st1 l2) := by
  rw [processTokens_append]
  cases processTokens st l1 <;> rfl

theorem processTokens_cons (st : SplitState) (t : Token) (l : List Token) :
    processTokens st (t :: l) =
      (step st t).bind (fun st1 => processTokens st1 l) := by
  cases h : step st t <;> simp [processTokens, h]

/-- C1 (amended): for every balanced token stream — presented as the
flattening of a forest: optional neutral top-level content `A0`/`B0`
around a root element whose children are `A`, the `Signature` element,
then `B` — in which exactly one depth-1 element resolves to
`{dsig, Signature}` and exactly one depth-2 element resolves to
`{dsig, SignedInfo}`, namely a direct child of that Signature
(the `neutralForest` hypotheses say precisely that no other element at
those depths resolves to those names), the outer buffer holds exactly
the input tokens outside the Signature subtree and the inner buffer
exactly the SignedInfo subtree, each in order of arrival — except that
the SignedInfo start tag appears in the inner buffer with the injected
namespace-declaration attributes appended after its own. -/
theorem split_buffers_amended
    (A0 B0 A B S1 S2 C : Forest)
    (rootName sigName siName : XmlName)
    (rootAttrs sigAttrs siAttrs : List XmlAttr)
    (hA0 : neutralForest [] A0 = true)
    (hB0 : neutralForest [] B0 = true)
    (hA : neutralForest [framesOfAttrs rootAttrs] A = true)
    (hB : neutralForest [framesOfAttrs rootAttrs] B = true)
    (hS1 : neutralForest [framesOfAttrs sigAttrs, framesOfAttrs rootAttrs] S1 = true)
    (hS2 : neutralForest [framesOfAttrs sigAttrs, framesOfAttrs rootAttrs] S2 = true)
    (hsg : (⟨Stack.Get [framesOfAttrs sigAttrs, framesOfAttrs rootAttrs] sigName.space,
             sigName.localName⟩ : XmlName) = signatureName)
    (hsi : (⟨Stack.Get [framesOfAttrs siAttrs, framesOfAttrs sigAttrs,
              framesOfAttrs rootAttrs] siName.space,
             siName.localName⟩ : XmlName) = signedInfoName) :
    splitTokens (flattenForest (Forest.cat A0 (Forest.cons
        (Node.elem rootName rootAttrs (Forest.cat A (Forest.cons
          (Node.elem sigName sigAttrs (Forest.cat S1 (Forest.cons
            (Node.elem siName siAttrs C) S2))) B))) B0))) =
      SplitOutcome.ok
        (flattenForest A0 ++ [Token.startElement rootName rootAttrs] ++
          flattenForest A ++ flattenForest B ++ [Token.endElement rootName] ++
          flattenForest B0)
        ([Token.startElement siName (siAttrs ++ injectedAttrs
            [framesOfAttrs siAttrs, framesOfAttrs sigAttrs, framesOfAttrs rootAttrs])] ++
          flattenForest C ++ [Token.endElement siName]) := by
  have hseq : flattenForest (Forest.cat A0 (Forest.cons
      (Node.elem rootName rootAttrs (Forest.cat A (Forest.cons
        (Node.elem sigName sigAttrs (Forest.cat S1 (Forest.cons
          (Node.elem siName siAttrs C) S2))) B))) B0)) =
      flattenForest A0 ++ (Token.startElement rootName rootAttrs ::
        (flattenForest A ++ (Token.startElement sigName sigAttrs ::
          (flattenForest S1 ++ (Token.startElement siName siAttrs ::
            (flattenForest C ++ (Token.endElement siName ::
              (flattenForest S2 ++ (Token.endElement sigName ::
                (flattenForest B ++ (Token.endElement rootName ::
                  flattenForest B0))))))))))) := by
    simp [flattenForest_cat, flattenForest, flattenNode, List.append_assoc]
  have w1 : processTokens initState (flattenForest A0) =
      some ⟨flattenForest A0, [], false, false, []⟩ := by
    rw [neutral_walk (forestSize A0) A0 initState le_rfl hA0
      (fun h => absurd h Bool.false_ne_true) (fun h => absurd h Bool.false_ne_true)]
    simp [initState]
  have w2 : step (⟨flattenForest A0, [], false, false, []⟩ : SplitState)
      (Token.startElement rootName rootAttrs) =
      some ⟨flattenForest A0 ++ [Token.startElement rootName rootAttrs],
        [], false, false, [framesOfAttrs rootAttrs]⟩ := by
    have h1 : ¬ (Stack.Len (Stack.Push ([] : Stack) (framesOfAttrs rootAttrs)) =
        signatureDepth + 1 ∧
        (⟨Stack.Get (Stack.Push ([] : Stack) (framesOfAttrs rootAttrs)) rootName.space,
          rootName.localName⟩ : XmlName) = signatureName) := by
      intro hc
      have := hc.1
      simp [Stack.Len, Stack.Push, signatureDepth] at this
    have h2 : ¬ (Stack.Len (Stack.Push ([] : Stack) (framesOfAttrs rootAttrs)) =
        signedInfoDepth + 1 ∧
        (⟨Stack.Get (Stack.Push ([] : Stack) (framesOfAttrs rootAttrs)) rootName.space,
          rootName.localName⟩ : XmlName) = signedInfoName) := by
      intro hc
      have := hc.1
      simp [Stack.Len, Stack.Push, signedInfoDepth] at this
    simp only [step, if_neg h1, if_neg h2]
    simp [Stack.Push]
  have w3 : processTokens
      (⟨flattenForest A0 ++ [Token.startElement rootName rootAttrs],
        [], false, false, [framesOfAttrs rootAttrs]⟩ : SplitState)
      (flattenForest A) =
      some ⟨flattenForest A0 ++ [Token.startElement rootName rootAttrs] ++
        flattenForest A, [], false, false, [framesOfAttrs rootAttrs]⟩ := by
    rw [neutral_walk (forestSize A) A (⟨flattenForest A0 ++ [Token.startElement rootName rootAttrs],
        [], false, false, [framesOfAttrs rootAttrs]⟩ : SplitState) le_rfl hA
      (fun h => absurd h Bool.false_ne_true) (fun h => absurd h Bool.false_ne_true)]
    simp [List.append_assoc]
  have w4 : step (⟨flattenForest A0 ++ [Token.startElement rootName rootAttrs] ++
        flattenForest A, [], false, false, [framesOfAttrs rootAttrs]⟩ : SplitState)
      (Token.startElement sigName sigAttrs) =
      some ⟨flattenForest A0 ++ [Token.startElement rootName rootAttrs] ++
        flattenForest A, [], true, false,
        [framesOfAttrs sigAttrs, framesOfAttrs rootAttrs]⟩ := by
    have h1 : Stack.Len (Stack.Push [framesOfAttrs rootAttrs] (framesOfAttrs sigAttrs)) =
        signatureDepth + 1 ∧
        (⟨Stack.Get (Stack.Push [framesOfAttrs rootAttrs] (framesOfAttrs sigAttrs))
            sigName.space, sigName.localName⟩ : XmlName) = signatureName := ⟨rfl, hsg⟩
    have h2 : ¬ (Stack.Len (Stack.Push [framesOfAttrs rootAttrs] (framesOfAttrs sigAttrs)) =
        signedInfoDepth + 1 ∧
        (⟨Stack.Get (Stack.Push [framesOfAttrs rootAttrs] (framesOfAttrs sigAttrs))
            sigName.space, sigName.localName⟩ : XmlName) = signedInfoName) := by
      intro hc
      have := hc.1
      simp [Stack.Len, Stack.Push, signedInfoDepth] at this
    simp only [step, if_pos h1, if_neg h2]
    simp [Stack.Push, signatureDepth, signedInfoDepth]
  have w5 : processTokens
      (⟨flattenForest A0 ++ [Token.startElement rootName rootAttrs] ++
        flattenForest A, [], true, false,
        [framesOfAttrs sigAttrs, framesOfAttrs rootAttrs]⟩ : SplitState)
      (flattenForest S1) =
      some ⟨flattenForest A0 ++ [Token.startElement rootName rootAttrs] ++
        flattenForest A, [], true, false,
        [framesOfAttrs sigAttrs, framesOfAttrs rootAttrs]⟩ := by
    rw [neutral_walk (forestSize S1) S1 (⟨flattenForest A0 ++ [Token.startElement rootName rootAttrs] ++
        flattenForest A, [], true, false,
        [framesOfAttrs sigAttrs, framesOfAttrs rootAttrs]⟩ : SplitState) le_rfl hS1
      (fun _ => le_refl 2) (fun h => absurd h Bool.false_ne_true)]
    simp
  have w6 : step (⟨flattenForest A0 ++ [Token.startElement rootName rootAttrs] ++
        flattenForest A, [], true, false,
        [framesOfAttrs sigAttrs, framesOfAttrs rootAttrs]⟩ : SplitState)
      (Token.startElement siName siAttrs) =
      some ⟨flattenForest A0 ++ [Token.startElement rootName rootAttrs] ++
        flattenForest A,
        [Token.startElement siName (siAttrs ++ injectedAttrs
          [framesOfAttrs siAttrs, framesOfAttrs sigAttrs, framesOfAttrs rootAttrs])],
        true, true,
        [framesOfAttrs siAttrs, framesOfAttrs sigAttrs, framesOfAttrs rootAttrs]⟩ := by
    have h1 : ¬ (Stack.Len (Stack.Push
        [framesOfAttrs sigAttrs, framesOfAttrs rootAttrs] (framesOfAttrs siAttrs)) =
        signatureDepth + 1 ∧
        (⟨Stack.Get (Stack.Push
            [framesOfAttrs sigAttrs, framesOfAttrs rootAttrs] (framesOfAttrs siAttrs))
            siName.space, siName.localName⟩ : XmlName) = signatureName) := by
      intro hc
      have := hc.1
      simp [Stack.Len, Stack.Push, signatureDepth] at this
    have h2 : Stack.Len (Stack.Push
        [framesOfAttrs sigAttrs, framesOfAttrs rootAttrs] (framesOfAttrs siAttrs)) =
        signedInfoDepth + 1 ∧
        (⟨Stack.Get (Stack.Push
            [framesOfAttrs sigAttrs, framesOfAttrs rootAttrs] (framesOfAttrs siAttrs))
            siName.space, siName.localName⟩ : XmlName) = signedInfoName := ⟨rfl, hsi⟩
    simp only [step, if_neg h1, if_pos h2]
    simp [Stack.Push]
  have w7 : processTokens
      (⟨flattenForest A0 ++ [Token.startElement rootName rootAttrs] ++
        flattenForest A,
        [Token.startElement siName (siAttrs ++ injectedAttrs
          [framesOfAttrs siAttrs, framesOfAttrs sigAttrs, framesOfAttrs rootAttrs])],
        true, true,
        [framesOfAttrs siAttrs, framesOfAttrs sigAttrs, framesOfAttrs rootAttrs]⟩ : SplitState)
      (flattenForest C) =
      some ⟨flattenForest A0 ++ [Token.startElement rootName rootAttrs] ++
        flattenForest A,
        [Token.startElement siName (siAttrs ++ injectedAttrs
          [framesOfAttrs siAttrs, framesOfAttrs sigAttrs, framesOfAttrs rootAttrs])] ++
          flattenForest C,
        true, true,
        [framesOfAttrs siAttrs, framesOfAttrs sigAttrs, framesOfAttrs rootAttrs]⟩ := by
    rw [neutral_walk (forestSize C) C (⟨flattenForest A0 ++ [Token.startElement rootName rootAttrs] ++
        flattenForest A,
        [Token.startElement siName (siAttrs ++ injectedAttrs
          [framesOfAttrs siAttrs, framesOfAttrs sigAttrs, framesOfAttrs rootAttrs])],
        true, true,
        [framesOfAttrs siAttrs, framesOfAttrs sigAttrs, framesOfAttrs rootAttrs]⟩ : SplitState) le_rfl
      (neutralForest_of_deep C
        [framesOfAttrs siAttrs, framesOfAttrs sigAttrs, framesOfAttrs rootAttrs]
        (le_refl 3))
      (fun _ => Nat.le_succ 2) (fun _ => le_refl 3)]
    simp
  have w8 : step (⟨flattenForest A0 ++ [Token.startElement rootName rootAttrs] ++
        flattenForest A,
        [Token.startElement siName (siAttrs ++ injectedAttrs
          [framesOfAttrs siAttrs, framesOfAttrs sigAttrs, framesOfAttrs rootAttrs])] ++
          flattenForest C,
        true, true,
        [framesOfAttrs siAttrs, framesOfAttrs sigAttrs, framesOfAttrs rootAttrs]⟩ : SplitState)
      (Token.endElement siName) =
      some ⟨flattenForest A0 ++ [Token.startElement rootName rootAttrs] ++
        flattenForest A,
        [Token.startElement siName (siAttrs ++ injectedAttrs
          [framesOfAttrs siAttrs, framesOfAttrs sigAttrs, framesOfAttrs rootAttrs])] ++
          flattenForest C ++ [Token.endElement siName],
        true, false,
        [framesOfAttrs sigAttrs, framesOfAttrs rootAttrs]⟩ := by
    have h1 : ¬ (List.length [framesOfAttrs sigAttrs, framesOfAttrs rootAttrs] =
        signatureDepth ∧ true = true) := by
      intro hc
      have := hc.1
      simp [signatureDepth] at this
    have h2 : List.length [framesOfAttrs sigAttrs, framesOfAttrs rootAttrs] =
        signedInfoDepth ∧ true = true := ⟨rfl, rfl⟩
    simp only [step, if_neg h1, if_pos h2]
    simp [List.append_assoc, signatureDepth, signedInfoDepth]
  have w9 : processTokens
      (⟨flattenForest A0 ++ [Token.startElement rootName rootAttrs] ++
        flattenForest A,
        [Token.startElement siName (siAttrs ++ injectedAttrs
          [framesOfAttrs siAttrs, framesOfAttrs sigAttrs, framesOfAttrs rootAttrs])] ++
          flattenForest C ++ [Token.endElement siName],
        true, false,
        [framesOfAttrs sigAttrs, framesOfAttrs rootAttrs]⟩ : SplitState)
      (flattenForest S2) =
      some ⟨flattenForest A0 ++ [Token.startElement rootName rootAttrs] ++
        flattenForest A,
        [Token.startElement siName (siAttrs ++ injectedAttrs
          [framesOfAttrs siAttrs, framesOfAttrs sigAttrs, framesOfAttrs rootAttrs])] ++
          flattenForest C ++ [Token.endElement siName],
        true, false,
        [framesOfAttrs sigAttrs, framesOfAttrs rootAttrs]⟩ := by
    rw [neutral_walk (forestSize S2) S2 (⟨flattenForest A0 ++ [Token.startElement rootName rootAttrs] ++
        flattenForest A,
        [Token.startElement siName (siAttrs ++ injectedAttrs
          [framesOfAttrs siAttrs, framesOfAttrs sigAttrs, framesOfAttrs rootAttrs])] ++
          flattenForest C ++ [Token.endElement siName],
        true, false,
        [framesOfAttrs sigAttrs, framesOfAttrs rootAttrs]⟩ : SplitState) le_rfl hS2
      (fun _ => le_refl 2) (fun h => absurd h Bool.false_ne_true)]
    simp
  have w10 : step (⟨flattenForest A0 ++ [Token.startElement rootName rootAttrs] ++
        flattenForest A,
        [Token.startElement siName (siAttrs ++ injectedAttrs
          [framesOfAttrs siAttrs, framesOfAttrs sigAttrs, framesOfAttrs rootAttrs])] ++
          flattenForest C ++ [Token.endElement siName],
        true, false,
        [framesOfAttrs sigAttrs, framesOfAttrs rootAttrs]⟩ : SplitState)
      (Token.endElement sigName) =
      some ⟨flattenForest A0 ++ [Token.startElement rootName rootAttrs] ++
        flattenForest A,
        [Token.startElement siName (siAttrs ++ injectedAttrs
          [framesOfAttrs siAttrs, framesOfAttrs sigAttrs, framesOfAttrs rootAttrs])] ++
          flattenForest C ++ [Token.endElement siName],
        false, false,
        [framesOfAttrs rootAttrs]⟩ := by
    have h1 : List.length [framesOfAttrs rootAttrs] = signatureDepth ∧ true = true :=
      ⟨rfl, rfl⟩
    have h2 : ¬ (List.length [framesOfAttrs rootAttrs] = signedInfoDepth ∧
        false = true) := by
      intro hc
      exact absurd hc.2 (by decide)
    simp only [step, if_pos h1, if_neg h2]
    simp [signatureDepth, signedInfoDepth]
  have w11 : processTokens
      (⟨flattenForest A0 ++ [Token.startElement rootName rootAttrs] ++
        flattenForest A,
        [Token.startElement siName (siAttrs ++ injectedAttrs
          [framesOfAttrs siAttrs, framesOfAttrs sigAttrs, framesOfAttrs rootAttrs])] ++
          flattenForest C ++ [Token.endElement siName],
        false, false,
        [framesOfAttrs rootAttrs]⟩ : SplitState)
      (flattenForest B) =
      some ⟨flattenForest A0 ++ [Token.startElement rootName rootAttrs] ++
        flattenForest A ++ flattenForest B,
        [Token.startElement siName (siAttrs ++ injectedAttrs
          [framesOfAttrs siAttrs, framesOfAttrs sigAttrs, framesOfAttrs rootAttrs])] ++
          flattenForest C ++ [Token.endElement siName],
        false, false,
        [framesOfAttrs rootAttrs]⟩ := by
    rw [neutral_walk (forestSize B) B (⟨flattenForest A0 ++ [Token.startElement rootName rootAttrs] ++
        flattenForest A,
        [Token.startElement siName (siAttrs ++ injectedAttrs
          [framesOfAttrs siAttrs, framesOfAttrs sigAttrs, framesOfAttrs rootAttrs])] ++
          flattenForest C ++ [Token.endElement siName],
        false, false,
        [framesOfAttrs rootAttrs]⟩ : SplitState) le_rfl hB
      (fun h => absurd h Bool.false_ne_true) (fun h => absurd h Bool.false_ne_true)]
    simp [List.append_assoc]
  have w12 : step (⟨flattenForest A0 ++ [Token.startElement rootName rootAttrs] ++
        flattenForest A ++ flattenForest B,
        [Token.startElement siName (siAttrs ++ injectedAttrs
          [framesOfAttrs siAttrs, framesOfAttrs sigAttrs, framesOfAttrs rootAttrs])] ++
          flattenForest C ++ [Token.endElement siName],
        false, false,
        [framesOfAttrs rootAttrs]⟩ : SplitState)
      (Token.endElement rootName) =
      some ⟨flattenForest A0 ++ [Token.startElement rootName rootAttrs] ++
        flattenForest A ++ flattenForest B ++ [Token.endElement rootName],
        [Token.startElement siName (siAttrs ++ injectedAttrs
          [framesOfAttrs siAttrs, framesOfAttrs sigAttrs, framesOfAttrs rootAttrs])] ++
          flattenForest C ++ [Token.endElement siName],
        false, false, []⟩ := by
    have h1 : ¬ (List.length ([] : Stack) = signatureDepth ∧ false = true) := by
      intro hc
      exact absurd hc.2 (by decide)
    have h2 : ¬ (List.length ([] : Stack) = signedInfoDepth ∧ false = true) := by
      intro hc
      exact absurd hc.2 (by decide)
    simp only [step, if_neg h1, if_neg h2]
    simp [List.append_assoc, signatureDepth, signedInfoDepth]
  have w13 : processTokens
      (⟨flattenForest A0 ++ [Token.startElement rootName rootAttrs] ++
        flattenForest A ++ flattenForest B ++ [Token.endElement rootName],
        [Token.startElement siName (siAttrs ++ injectedAttrs
          [framesOfAttrs siAttrs, framesOfAttrs sigAttrs, framesOfAttrs rootAttrs])] ++
          flattenForest C ++ [Token.endElement siName],
        false, false, []⟩ : SplitState)
      (flattenForest B0) =
      some ⟨flattenForest A0 ++ [Token.startElement rootName rootAttrs] ++
        flattenForest A ++ flattenForest B ++ [Token.endElement rootName] ++
        flattenForest B0,
        [Token.startElement siName (siAttrs ++ injectedAttrs
          [framesOfAttrs siAttrs, framesOfAttrs sigAttrs, framesOfAttrs rootAttrs])] ++
          flattenForest C ++ [Token.endElement siName],
        false, false, []⟩ := by
    rw [neutral_walk (forestSize B0) B0 (⟨flattenForest A0 ++ [Token.startElement rootName rootAttrs] ++
        flattenForest A ++ flattenForest B ++ [Token.endElement rootName],
        [Token.startElement siName (siAttrs ++ injectedAttrs
          [framesOfAttrs siAttrs, framesOfAttrs sigAttrs, framesOfAttrs rootAttrs])] ++
          flattenForest C ++ [Token.endElement siName],
        false, false, []⟩ : SplitState) le_rfl hB0
      (fun h => absurd h Bool.false_ne_true) (fun h => absurd h Bool.false_ne_true)]
    simp [List.append_assoc]
  have hrun : processTokens initState (flattenForest (Forest.cat A0 (Forest.cons
      (Node.elem rootName rootAttrs (Forest.cat A (Forest.cons
        (Node.elem sigName sigAttrs (Forest.cat S1 (Forest.cons
          (Node.elem siName siAttrs C) S2))) B))) B0))) =
      some ⟨flattenForest A0 ++ [Token.startElement rootName rootAttrs] ++
        flattenForest A ++ flattenForest B ++ [Token.endElement rootName] ++
        flattenForest B0,
        [Token.startElement siName (siAttrs ++ injectedAttrs
          [framesOfAttrs siAttrs, framesOfAttrs sigAttrs, framesOfAttrs rootAttrs])] ++
          flattenForest C ++ [Token.endElement siName],
        false, false, []⟩ := by
    rw [hseq]
    simp only [processTokens_append_bind, processTokens_cons,
      w1, w2, w3, w4, w5, w6, w7, w8, w9, w10, w11, w12, w13,
      Option.some_bind]
  show splitWalk { toks := _, term := (none : Option Empty) } = _
  rw [splitWalk, hrun]

theorem split_buffers_amended_witness :
    splitTokens (flattenForest (Forest.cat Forest.nil (Forest.cons
        (Node.elem ⟨"", "Root"⟩ [] (Forest.cat Forest.nil (Forest.cons
          (Node.elem ⟨"", "Signature"⟩
            [⟨⟨"", "xmlns"⟩, "http://www.w3.org/2000/09/xmldsig#"⟩]
            (Forest.cat Forest.nil (Forest.cons
              (Node.elem ⟨"", "SignedInfo"⟩ [] Forest.nil) Forest.nil)))
          Forest.nil))) Forest.nil))) =
      SplitOutcome.ok
        (flattenForest Forest.nil ++ [Token.startElement ⟨"", "Root"⟩ []] ++
          flattenForest Forest.nil ++ flattenForest Forest.nil ++
          [Token.endElement ⟨"", "Root"⟩] ++ flattenForest Forest.nil)
        ([Token.startElement ⟨"", "SignedInfo"⟩ ([] ++ injectedAttrs
            [framesOfAttrs [],
             framesOfAttrs [⟨⟨"", "xmlns"⟩, "http://www.w3.org/2000/09/xmldsig#"⟩],
             framesOfAttrs []])] ++
          flattenForest Forest.nil ++ [Token.endElement ⟨"", "SignedInfo"⟩]) := by
  exact split_buffers_amended Forest.nil Forest.nil Forest.nil Forest.nil
    Forest.nil Forest.nil Forest.nil ⟨"", "Root"⟩ ⟨"", "Signature"⟩
    ⟨"", "SignedInfo"⟩ []
    [⟨⟨"", "xmlns"⟩, "http://www.w3.org/2000/09/xmldsig#"⟩] []
    (by decide) (by decide) (by decide) (by decide) (by decide) (by decide)
    (by decide) (by decide)

/-! ## The verifier of `src/dsig.go`

`Signature.Verify` is embedded with its external collaborators — the
result of `sigsplit.SplitSignature` followed by c14n (two byte
strings), the base64 codec, the hash constructors, and the RSA
PKCS#1 v1.5 primitive — supplied as an abstract `Collaborators`
record, exactly at the call boundaries the code uses them. The
algorithm registry (`DigestMethod.hash`, `SignatureMethod.hash`) is
the code's own and is embedded directly. -/

/-- Byte strings (Go `[]byte`). -/
abbrev ByteStr := List Nat

/-- The error values `Verify` can produce or pass through: the four
package errors of `src/dsig.go`, reader errors, base64 corrupt-input
errors, c14n errors, and `rsa.ErrVerification`. -/
inductive GoError where
  | readerErr (msg : String)
  | base64CorruptInput (pos : Nat)
  | c14nErr (msg : String)
  | badDigest
  | publicKeyNotRSA
  | badDigestAlgorithm
  | badSignatureAlgorithm
  | rsaVerification
  deriving DecidableEq

/-- The two hash identifiers `crypto.SHA1` and `crypto.SHA256` the
registry can select. -/
inductive CryptoHash where
  | sha1
  | sha256
  deriving DecidableEq

/-- `DigestMethod` from `src/dsig.go` (the constant `XMLName` tag is
omitted). -/
structure DigestMethod where
  Algorithm : String
  deriving DecidableEq

/-- `SignatureMethod` from `src/dsig.go`. -/
structure SignatureMethod where
  Algorithm : String
  deriving DecidableEq

/-- `CanonicalizationMethod` from `src/dsig.go`. -/
structure CanonicalizationMethod where
  Algorithm : String
  deriving DecidableEq

/-- `Reference` from `src/dsig.go`: it has exactly the members
`DigestMethod` and `DigestValue` (besides the constant `XMLName`). -/
structure Reference where
  DigestMethod : DigestMethod
  DigestValue : String
  deriving DecidableEq

/-- `SignedInfo` from `src/dsig.go`. -/
structure SignedInfo where
  CanonicalizationMethod : CanonicalizationMethod
  SignatureMethod : SignatureMethod
  Reference : Reference
  deriving DecidableEq

/-- `Signature` from `src/dsig.go`. -/
structure Signature where
  SignedInfo : SignedInfo
  SignatureValue : String
  deriving DecidableEq

/-- `DigestMethodAlgorithmSHA1` from `src/dsig.go`. -/
def DigestMethodAlgorithmSHA1 : String := "http://www.w3.org/2000/09/xmldsig#sha1"

/-- `DigestMethodAlgorithmSHA256` from `src/dsig.go`. -/
def DigestMethodAlgorithmSHA256 : String := "http://www.w3.org/2001/04/xmlenc#sha256"

/-- `SignatureMethodAlgorithmSHA1` from `src/dsig.go`. -/
def SignatureMethodAlgorithmSHA1 : String := "http://www.w3.org/2000/09/xmldsig#rsa-sha1"

/-- `SignatureMethodAlgorithmSHA256` from `src/dsig.go`. -/
def SignatureMethodAlgorithmSHA256 : String :=
  "http://www.w3.org/2001/04/xmldsig-more#rsa-sha256"

/-- `CanonicalizationMethodAlgorithmExclusive` from `src/dsig.go`. -/
def CanonicalizationMethodAlgorithmExclusive : String :=
  "http://www.w3.org/2001/10/xml-exc-c14n#"

/-- `DigestMethod.hash` from `src/dsig.go`: the digest half of the
algorithm registry. -/
def DigestMethod.hash (d : DigestMethod) : Except GoError CryptoHash :=
  if d.Algorithm = DigestMethodAlgorithmSHA1 then .ok .sha1
  else if d.Algorithm = DigestMethodAlgorithmSHA256 then .ok .sha256
  else .error .badDigestAlgorithm

/-- `SignatureMethod.hash` from `src/dsig.go`: the signature half of
the algorithm registry. -/
def SignatureMethod.hash (s : SignatureMethod) : Except GoError CryptoHash :=
  if s.Algorithm = SignatureMethodAlgorithmSHA1 then .ok .sha1
  else if s.Algorithm = SignatureMethodAlgorithmSHA256 then .ok .sha256
  else .error .badSignatureAlgorithm

/-- The public key carried by the supplied `x509.Certificate`: either
an RSA key (modulus and exponent) or something else, on which the type
assertion `cert.PublicKey.(*rsa.PublicKey)` fails. -/
inductive PublicKey where
  | rsa (n e : Nat)
  | other (kind : String)
  deriving DecidableEq

/-- The part of `x509.Certificate` that `Verify` reads. -/
structure Certificate where
  PublicKey : PublicKey
  deriving DecidableEq

/-- The external collaborators of `Verify`, as observed at its call
sites: `split` is the result of `sigsplit.SplitSignature` (the two
canonicalized byte strings, or the propagated error); `base64Decode`
is `base64.StdEncoding.DecodeString`; `hashSum h b` is
`h.New(); Write(b); Sum(nil)`; `rsaVerifyPKCS1v15 n e h hashed sig` is
`rsa.VerifyPKCS1v15` (returning `none` on success). -/
structure Collaborators where
  split : Except GoError (ByteStr × ByteStr)
  base64Decode : String → Except GoError ByteStr
  hashSum : CryptoHash → ByteStr → ByteStr
  rsaVerifyPKCS1v15 : Nat → Nat → CryptoHash → ByteStr → ByteStr → Option GoError

/-- `Signature.Verify` from `src/dsig.go` lines 77–126, statement by
statement: split, base64-decode DigestValue, resolve the digest
algorithm, hash the outer bytes and compare (`ErrBadDigest` on
mismatch), extract the RSA key (`ErrPublicKeyNotRSA` otherwise),
resolve the signature algorithm, hash the inner bytes, base64-decode
SignatureValue, and finally the RSA PKCS#1 v1.5 check, whose verdict
is returned directly (`none` = nil = success). -/
def Signature.Verify (s : Signature) (cert : Certificate) (C : Collaborators) :
    Option GoError :=
  match C.split with
  | .error e => some e
  | .ok (toDigest, toVerify) =>
    match C.base64Decode s.SignedInfo.Reference.DigestValue with
    | .error e => some e
    | .ok expectedDigest =>
      match s.SignedInfo.Reference.DigestMethod.hash with
      | .error e => some e
      | .ok digestHash =>
        if expectedDigest = C.hashSum digestHash toDigest then
          match cert.PublicKey with
          | .rsa n e =>
            match s.SignedInfo.SignatureMethod.hash with
            | .error err => some err
            | .ok signatureHash =>
              match C.base64Decode s.SignatureValue with
              | .error err => some err
              | .ok expectedSignature =>
                C.rsaVerifyPKCS1v15 n e signatureHash
                  (C.hashSum signatureHash toVerify) expectedSignature
          | .other _ => some GoError.publicKeyNotRSA
        else some GoError.badDigest

/-! ## Claim C3 -/

/-- C3: `Verify` performs its checks in exactly the order
split, base64-decode DigestValue, resolve digest algorithm, compare
the outer digest (mismatch ⇒ `ErrBadDigest`), extract the RSA key
(non-RSA ⇒ `ErrPublicKeyNotRSA`), resolve the signature algorithm,
hash the inner bytes, base64-decode SignatureValue, RSA verify — and
returns the first failure along this sequence, attempting nothing
after it. In particular the digest-mismatch conjunct holds for every
certificate, so a mismatch is reported as `ErrBadDigest` even when
the key is also non-RSA. -/
theorem verify_first_failure_order (s : Signature) (cert : Certificate)
    (C : Collaborators) :
    (∀ e, C.split = .error e → Signature.Verify s cert C = some e) ∧
    (∀ td tv e, C.split = .ok (td, tv) →
      C.base64Decode s.SignedInfo.Reference.DigestValue = .error e →
      Signature.Verify s cert C = some e) ∧
    (∀ td tv ed e, C.split = .ok (td, tv) →
      C.base64Decode s.SignedInfo.Reference.DigestValue = .ok ed →
      s.SignedInfo.Reference.DigestMethod.hash = .error e →
      Signature.Verify s cert C = some e) ∧
    (∀ td tv ed dh, C.split = .ok (td, tv) →
      C.base64Decode s.SignedInfo.Reference.DigestValue = .ok ed →
      s.SignedInfo.Reference.DigestMethod.hash = .ok dh →
      ed ≠ C.hashSum dh td →
      Signature.Verify s cert C = some GoError.badDigest) ∧
    (∀ td tv ed dh k, C.split = .ok (td, tv) →
      C.base64Decode s.SignedInfo.Reference.DigestValue = .ok ed →
      s.SignedInfo.Reference.DigestMethod.hash = .ok dh →
      ed = C.hashSum dh td →
      cert.PublicKey = .other k →
      Signature.Verify s cert C = some GoError.publicKeyNotRSA) ∧
    (∀ td tv ed dh n e er, C.split = .ok (td, tv) →
      C.base64Decode s.SignedInfo.Reference.DigestValue = .ok ed →
      s.SignedInfo.Reference.DigestMethod.hash = .ok dh →
      ed = C.hashSum dh td →
      cert.PublicKey = .rsa n e →
      s.SignedInfo.SignatureMethod.hash = .error er →
      Signature.Verify s cert C = some er) ∧
    (∀ td tv ed dh n e sh er, C.split = .ok (td, tv) →
      C.base64Decode s.SignedInfo.Reference.DigestValue = .ok ed →
      s.SignedInfo.Reference.DigestMethod.hash = .ok dh →
      ed = C.hashSum dh td →
      cert.PublicKey = .rsa n e →
      s.SignedInfo.SignatureMethod.hash = .ok sh →
      C.base64Decode s.SignatureValue = .error er →
      Signature.Verify s cert C = some er) ∧
    (∀ td tv ed dh n e sh es, C.split = .ok (td, tv) →
      C.base64Decode s.SignedInfo.Reference.DigestValue = .ok ed →
      s.SignedInfo.Reference.DigestMethod.hash = .ok dh →
      ed = C.hashSum dh td →
      cert.PublicKey = .rsa n e →
      s.SignedInfo.SignatureMethod.hash = .ok sh →
      C.base64Decode s.SignatureValue = .ok es →
      Signature.Verify s cert C =
        C.rsaVerifyPKCS1v15 n e sh (C.hashSum sh tv) es) := by
  refine ⟨?_, ?_, ?_, ?_, ?_, ?_, ?_, ?_⟩
  · intro e h
    simp [Signature.Verify, h]
  · intro td tv e h1 h2
    simp [Signature.Verify, h1, h2]
  · intro td tv ed e h1 h2 h3
    simp [Signature.Verify, h1, h2, h3]
  · intro td tv ed dh h1 h2 h3 h4
    simp [Signature.Verify, h1, h2, h3, h4]
  · intro td tv ed dh k h1 h2 h3 h4 h5
    simp [Signature.Verify, h1, h2, h3, h4, h5]
  · intro td tv ed dh n e er h1 h2 h3 h4 h5 h6
    simp [Signature.Verify, h1, h2, h3, h4, h5, h6]
  · intro td tv ed dh n e sh er h1 h2 h3 h4 h5 h6 h7
    simp [Signature.Verify, h1, h2, h3, h4, h5, h6, h7]
  · intro td tv ed dh n e sh es h1 h2 h3 h4 h5 h6 h7
    simp [Signature.Verify, h1, h2, h3, h4, h5, h6, h7]

theorem verify_first_failure_order_witness :
    Signature.Verify
      ⟨⟨⟨CanonicalizationMethodAlgorithmExclusive⟩,
        ⟨SignatureMethodAlgorithmSHA1⟩,
        ⟨⟨DigestMethodAlgorithmSHA1⟩, "AAAA"⟩⟩, "BBBB"⟩
      ⟨PublicKey.other "ecdsa"⟩
      ⟨Except.ok ([1], [2]), fun _ => Except.ok [],
       fun _ _ => [9], fun _ _ _ _ _ => none⟩ = some GoError.badDigest := by
  exact (verify_first_failure_order
    ⟨⟨⟨CanonicalizationMethodAlgorithmExclusive⟩,
      ⟨SignatureMethodAlgorithmSHA1⟩,
      ⟨⟨DigestMethodAlgorithmSHA1⟩, "AAAA"⟩⟩, "BBBB"⟩
    ⟨PublicKey.other "ecdsa"⟩
    ⟨Except.ok ([1], [2]), fun _ => Except.ok [],
     fun _ _ => [9], fun _ _ _ _ _ => none⟩).2.2.2.1
    [1] [2] [] CryptoHash.sha1 rfl rfl rfl (by decide)

/-! ## Claim C4 -/

/-- C4 counterexample: with an unrecognized digest URI, `Verify` does
not return `ErrBadDigestAlgorithm` for *every* certificate and token
stream. If the token reader fails, the split's error is returned
first; if `DigestValue` is not valid base64, the decode error is
returned first. -/
theorem algorithm_gating_counterexample :
    Signature.Verify
      ⟨⟨⟨CanonicalizationMethodAlgorithmExclusive⟩, ⟨"nonsense"⟩,
        ⟨⟨"nonsense"⟩, "AAAA"⟩⟩, "BBBB"⟩
      ⟨PublicKey.rsa 5 3⟩
      ⟨Except.error (GoError.readerErr "io failure"), fun _ => Except.ok [],
       fun _ _ => [], fun _ _ _ _ _ => none⟩ =
      some (GoError.readerErr "io failure") ∧
    GoError.readerErr "io failure" ≠ GoError.badDigestAlgorithm ∧
    Signature.Verify
      ⟨⟨⟨CanonicalizationMethodAlgorithmExclusive⟩, ⟨"nonsense"⟩,
        ⟨⟨"nonsense"⟩, "!!"⟩⟩, "BBBB"⟩
      ⟨PublicKey.rsa 5 3⟩
      ⟨Except.ok ([], []), fun _ => Except.error (GoError.base64CorruptInput 0),
       fun _ _ => [], fun _ _ _ _ _ => none⟩ =
      some (GoError.base64CorruptInput 0) ∧
    GoError.base64CorruptInput 0 ≠ GoError.badDigestAlgorithm := by
  exact ⟨rfl, by decide, rfl, by decide⟩

/-- C4 (amended): provided the split succeeds and `DigestValue`
base64-decodes, a digest URI outside the registry makes `Verify`
return `ErrBadDigestAlgorithm`; and when additionally the digest
matches and the certificate key is RSA, a signature URI outside the
registry makes `Verify` return `ErrBadSignatureAlgorithm`. Both
conclusions hold for every collaborator record, in particular for
every RSA primitive, so the RSA primitive is never consulted. -/
theorem algorithm_gating (s : Signature) (cert : Certificate)
    (C : Collaborators) :
    (∀ td tv ed, C.split = .ok (td, tv) →
      C.base64Decode s.SignedInfo.Reference.DigestValue = .ok ed →
      s.SignedInfo.Reference.DigestMethod.Algorithm ≠ DigestMethodAlgorithmSHA1 →
      s.SignedInfo.Reference.DigestMethod.Algorithm ≠ DigestMethodAlgorithmSHA256 →
      Signature.Verify s cert C = some GoError.badDigestAlgorithm) ∧
    (∀ td tv ed dh n e, C.split = .ok (td, tv) →
      C.base64Decode s.SignedInfo.Reference.DigestValue = .ok ed →
      s.SignedInfo.Reference.DigestMethod.hash = .ok dh →
      ed = C.hashSum dh td →
      cert.PublicKey = .rsa n e →
      s.SignedInfo.SignatureMethod.Algorithm ≠ SignatureMethodAlgorithmSHA1 →
      s.SignedInfo.SignatureMethod.Algorithm ≠ SignatureMethodAlgorithmSHA256 →
      Signature.Verify s cert C = some GoError.badSignatureAlgorithm) := by
  constructor
  · intro td tv ed h1 h2 h3 h4
    have hh : s.SignedInfo.Reference.DigestMethod.hash =
        .error GoError.badDigestAlgorithm := by
      simp [DigestMethod.hash, h3, h4]
    simp [Signature.Verify, h1, h2, hh]
  · intro td tv ed dh n e h1 h2 h3 h4 h5 h6 h7
    have hh : s.SignedInfo.SignatureMethod.hash =
        .error GoError.badSignatureAlgorithm := by
      simp [SignatureMethod.hash, h6, h7]
    simp [Signature.Verify, h1, h2, h3, h4, h5, hh]

theorem algorithm_gating_witness :
    Signature.Verify
      ⟨⟨⟨CanonicalizationMethodAlgorithmExclusive⟩, ⟨SignatureMethodAlgorithmSHA1⟩,
        ⟨⟨"nonsense"⟩, "AAAA"⟩⟩, "BBBB"⟩
      ⟨PublicKey.rsa 5 3⟩
      ⟨Except.ok ([], []), fun _ => Except.ok [],
       fun _ _ => [], fun _ _ _ _ _ => none⟩ =
      some GoError.badDigestAlgorithm ∧
    Signature.Verify
      ⟨⟨⟨CanonicalizationMethodAlgorithmExclusive⟩, ⟨"nonsense"⟩,
        ⟨⟨DigestMethodAlgorithmSHA1⟩, "AAAA"⟩⟩, "BBBB"⟩
      ⟨PublicKey.rsa 5 3⟩
      ⟨Except.ok ([], []), fun _ => Except.ok [],
       fun _ _ => [], fun _ _ _ _ _ => none⟩ =
      some GoError.badSignatureAlgorithm := by
  constructor
  · exact (algorithm_gating
      ⟨⟨⟨CanonicalizationMethodAlgorithmExclusive⟩, ⟨SignatureMethodAlgorithmSHA1⟩,
        ⟨⟨"nonsense"⟩, "AAAA"⟩⟩, "BBBB"⟩
      ⟨PublicKey.rsa 5 3⟩
      ⟨Except.ok ([], []), fun _ => Except.ok [],
       fun _ _ => [], fun _ _ _ _ _ => none⟩).1
      [] [] [] rfl rfl (by decide) (by decide)
  · exact (algorithm_gating
      ⟨⟨⟨CanonicalizationMethodAlgorithmExclusive⟩, ⟨"nonsense"⟩,
        ⟨⟨DigestMethodAlgorithmSHA1⟩, "AAAA"⟩⟩, "BBBB"⟩
      ⟨PublicKey.rsa 5 3⟩
      ⟨Except.ok ([], []), fun _ => Except.ok [],
       fun _ _ => [], fun _ _ _ _ _ => none⟩).2
      [] [] [] CryptoHash.sha1 5 3 rfl rfl rfl rfl rfl
      (by decide) (by decide)

/-! ## Claim C8 -/

/-- The content a `ds:Reference` element offers to the XML
unmarshaller: its `URI` attribute, the `Transform` algorithm URIs of
its `Transforms` child, its `DigestMethod` algorithm and its
`DigestValue` text. -/
structure ReferenceDoc where
  URI : String
  TransformAlgorithms : List String
  DigestMethodAlgorithm : String
  DigestValue : String
  deriving DecidableEq

/-- Go `encoding/xml` unmarshalling of a `ds:Reference` element into
the `Reference` struct of `src/dsig.go`: the struct declares members
only for `DigestMethod` and `DigestValue`, so `encoding/xml` discards
the `URI` attribute and the `Transforms` subtree. -/
def unmarshalReference (d : ReferenceDoc) : Reference :=
  ⟨⟨d.DigestMethodAlgorithm⟩, d.DigestValue⟩

/-- C8 counterexample: the parsed value object does not carry
`Reference.URI` or `Reference.Transforms` at all — two documents
differing in both unmarshal to literally the same `Reference`. -/
theorem reference_uri_transforms_not_carried :
    unmarshalReference ⟨"#a", ["http://www.w3.org/2001/10/xml-exc-c14n#"],
        DigestMethodAlgorithmSHA1, "dv"⟩ =
      unmarshalReference ⟨"#b", [], DigestMethodAlgorithmSHA1, "dv"⟩ ∧
    ("#a" : String) ≠ "#b" ∧
    (["http://www.w3.org/2001/10/xml-exc-c14n#"] : List String) ≠ [] := by
  exact ⟨rfl, by decide, by decide⟩

/-- C8 (amended): the `Reference` struct of `src/dsig.go` carries only
`DigestMethod` and `DigestValue`; the document's `URI` attribute and
`Transforms` subtree are discarded by unmarshalling, so two documents
agreeing on the digest members unmarshal to equal value objects and
`Verify` necessarily returns the same result for them. -/
theorem verify_ignores_uri_and_transforms (d1 d2 : ReferenceDoc)
    (h1 : d1.DigestMethodAlgorithm = d2.DigestMethodAlgorithm)
    (h2 : d1.DigestValue = d2.DigestValue) :
    unmarshalReference d1 = unmarshalReference d2 ∧
    ∀ (cm : CanonicalizationMethod) (sm : SignatureMethod) (sv : String)
      (cert : Certificate) (C : Collaborators),
      Signature.Verify ⟨⟨cm, sm, unmarshalReference d1⟩, sv⟩ cert C =
        Signature.Verify ⟨⟨cm, sm, unmarshalReference d2⟩, sv⟩ cert C := by
  have he : unmarshalReference d1 = unmarshalReference d2 := by
    unfold unmarshalReference
    rw [h1, h2]
  exact ⟨he, fun cm sm sv cert C => by rw [he]⟩

theorem verify_ignores_uri_and_transforms_witness :
    unmarshalReference ⟨"#a", ["t1"], DigestMethodAlgorithmSHA1, "dv"⟩ =
      unmarshalReference ⟨"#b", [], DigestMethodAlgorithmSHA1, "dv"⟩ ∧
    Signature.Verify
      ⟨⟨⟨CanonicalizationMethodAlgorithmExclusive⟩, ⟨SignatureMethodAlgorithmSHA1⟩,
        unmarshalReference ⟨"#a", ["t1"], DigestMethodAlgorithmSHA1, "dv"⟩⟩, "sv"⟩
      ⟨PublicKey.rsa 5 3⟩
      ⟨Except.ok ([], []), fun _ => Except.ok [],
       fun _ _ => [], fun _ _ _ _ _ => none⟩ =
    Signature.Verify
      ⟨⟨⟨CanonicalizationMethodAlgorithmExclusive⟩, ⟨SignatureMethodAlgorithmSHA1⟩,
        unmarshalReference ⟨"#b", [], DigestMethodAlgorithmSHA1, "dv"⟩⟩, "sv"⟩
      ⟨PublicKey.rsa 5 3⟩
      ⟨Except.ok ([], []), fun _ => Except.ok [],
       fun _ _ => [], fun _ _ _ _ _ => none⟩ := by
  obtain ⟨h1, h2⟩ := verify_ignores_uri_and_transforms
    ⟨"#a", ["t1"], DigestMethodAlgorithmSHA1, "dv"⟩
    ⟨"#b", [], DigestMethodAlgorithmSHA1, "dv"⟩ rfl rfl
  exact ⟨h1, h2 ⟨CanonicalizationMethodAlgorithmExclusive⟩
    ⟨SignatureMethodAlgorithmSHA1⟩ "sv" ⟨PublicKey.rsa 5 3⟩
    ⟨Except.ok ([], []), fun _ => Except.ok [],
     fun _ _ => [], fun _ _ _ _ _ => none⟩⟩

theorem signedInfo_entry_injects_topmost_bindings_witness :
    ∃ st', step
        (⟨[], [], true, false,
          [[("", "http://www.w3.org/2000/09/xmldsig#")], []]⟩ : SplitState)
        (Token.startElement ⟨"", "SignedInfo"⟩ []) = some st' ∧
      st'.inner = ([] : List Token) ++
        [Token.startElement ⟨"", "SignedInfo"⟩ (([] : List XmlAttr) ++
          injectedAttrs [[], [("", "http://www.w3.org/2000/09/xmldsig#")], []])] ∧
      (∀ p : String,
        (injectedAttrs [[], [("", "http://www.w3.org/2000/09/xmldsig#")], []]).filter
            (fun a => a.name = declNameOf p) =
          (if boundIn [[], [("", "http://www.w3.org/2000/09/xmldsig#")], []] p
           then [⟨declNameOf p,
                  Stack.Get [[], [("", "http://www.w3.org/2000/09/xmldsig#")], []] p⟩]
           else ([] : List XmlAttr))) ∧
      (∀ a ∈ injectedAttrs [[], [("", "http://www.w3.org/2000/09/xmldsig#")], []],
        ∃ p : String,
          boundIn [[], [("", "http://www.w3.org/2000/09/xmldsig#")], []] p = true ∧
          a = ⟨declNameOf p,
               Stack.Get [[], [("", "http://www.w3.org/2000/09/xmldsig#")], []] p⟩) := by
  exact signedInfo_entry_injects_topmost_bindings
    ⟨[], [], true, false, [[("", "http://www.w3.org/2000/09/xmldsig#")], []]⟩
    ⟨"", "SignedInfo"⟩ []
    [[], [("", "http://www.w3.org/2000/09/xmldsig#")], []]
    rfl (by decide) rfl (by decide)
